import Mathlib

/-!
# Windowed request counter (`pkg/api.go`)

A shallow embedding of the ring-buffer request counter of `pkg/api.go` and
theorems about it.

Modelling conventions.

* `time.Time` is a point on a linear time line, an `Int` number of nanoseconds;
  `0` is Go's zero `time.Time`, the value of the `Expiration` field of
  `&RequestEntry{}`.  `time.Duration` is an `Int` number of nanoseconds.  The wall
  clock and the monotonic clock readings of a `time.Time` are identified, so
  `After`, `Before` and `Add` are `<` and `+` on that line.
* The Go `int` fields `Count` and `currentIndex` are `Int`; the arithmetic on them
  (`Count++`, `totalCounts + entry.Count`, `currentIndex++`) is exact, which agrees
  with the 64-bit machine arithmetic as long as no value reaches `2^63`.
* `entries []*RequestEntry` is a list of optional entries: `none` is the nil
  pointer.  Every pointer stored by the program comes from a fresh
  `&RequestEntry{...}`, so no two slots alias and a slot can hold its entry by value.
* A run-time panic (nil dereference, index out of range, ...) aborts the process;
  an operation that can panic returns `Except Panic _`.
* The goroutine loops `for { select { ... } }` are modelled by their tick bodies,
  which run under the mutex `r.Lock()` and are therefore atomic steps on the state.
* The gob file written by `SaveStateToFile` and read by `LoadStateFromFile` is
  modelled by the slice `d []RequestEntry` that is encoded, respectively decoded.
-/

namespace Webparser

/-- Run-time panics of the Go program. -/
inductive Panic where
  | indexOutOfRange
  | nilDereference
  | divideByZero
  | negativeLength
  deriving DecidableEq, Repr

deriving instance DecidableEq for Except

/-- Model of `t.After(u)` on times in nanoseconds. -/
def After (t u : Int) : Bool := decide (u < t)

/-- Model of `t.Before(u)` on times in nanoseconds. -/
def Before (t u : Int) : Bool := decide (t < u)

/-- Model of `t.Add(d)`: the time `t` moved by the duration `d`. -/
def Add (t : Int) (d : Int) : Int := t + d

/-- `RequestEntry` corresponds to a single entry in the request counter: the `Count`
of requests and the `Expiration` time (a `time.Time`) of that count. -/
structure RequestEntry where
  Count : Int
  Expiration : Int
  deriving DecidableEq, Repr

/-- The value of `RequestEntry{}`: count 0 and the zero time. -/
def RequestEntry.zero : RequestEntry := ⟨0, 0⟩

/-- The data fields of `requestCounter` (channels and the mutex carry no data);
`precisionLevel` and `windowSize` are of type `time.Duration`. -/
structure requestCounter where
  entries : List (Option RequestEntry)
  precisionLevel : Int
  windowSize : Int
  currentIndex : Int
  filePath : String
  deriving DecidableEq, Repr

/-- `NewRequestCounter(precison, wsize, filePath)`: the buffer is
`make([]*RequestEntry, wsize.Nanoseconds() / precison.Nanoseconds())`, every slot nil.
The integer division panics on a zero divisor and truncates toward zero; `make`
panics on a negative length (a length too large to allocate is not modelled). -/
def NewRequestCounter (precison wsize : Int) (filePath : String) :
    Except Panic requestCounter :=
  if precison = 0 then .error .divideByZero
  else
    let bufferSize := Int.tdiv wsize precison
    if bufferSize < 0 then .error .negativeLength
    else .ok
      { entries := List.replicate bufferSize.toNat none
        precisionLevel := precison
        windowSize := wsize
        currentIndex := 0
        filePath := filePath ++ "/" ++ "counter.gob" }

/-- The slice read `entries[i]` followed by a dereference of the pointer read. -/
def deref (entries : List (Option RequestEntry)) (i : Int) : Except Panic RequestEntry :=
  if i < 0 then .error .indexOutOfRange
  else
    match entries[i.toNat]? with
    | none => .error .indexOutOfRange
    | some none => .error .nilDereference
    | some (some e) => .ok e

/-- The slice write `entries[i] = p`. -/
def store (entries : List (Option RequestEntry)) (i : Int) (p : Option RequestEntry) :
    Except Panic (List (Option RequestEntry)) :=
  if 0 ≤ i ∧ i < entries.length then .ok (entries.set i.toNat p)
  else .error .indexOutOfRange

/-- The tick body of `RotateWindow`: `currentIndex++`, wrap to 0 at `len(entries)`,
then `entries[currentIndex] = &RequestEntry{}`. -/
def RotateWindow (r : requestCounter) : Except Panic requestCounter :=
  let currentIndex := r.currentIndex + 1
  let currentIndex := if currentIndex = r.entries.length then 0 else currentIndex
  match store r.entries currentIndex (some RequestEntry.zero) with
  | .ok entries => .ok { r with entries := entries, currentIndex := currentIndex }
  | .error p => .error p

/-- The loop `for _, entry := range r.entries` of `ProcessRequests`, with the
accumulator `totalCounts`. -/
def sumLoop (input : Int) : List (Option RequestEntry) → Int → Int
  | [], totalCounts => totalCounts
  | none :: rest, totalCounts => sumLoop input rest totalCounts
  | some entry :: rest, totalCounts =>
    if After entry.Expiration input then sumLoop input rest (totalCounts + entry.Count)
    else sumLoop input rest totalCounts

/-- The body of `ProcessRequests` for one `input` received on the input channel:
the new state and the total sent on the output channel. -/
def ProcessRequests (r : requestCounter) (input : Int) :
    Except Panic (requestCounter × Int) :=
  match deref r.entries r.currentIndex with
  | .error p => .error p
  | .ok e =>
    let e1 : RequestEntry := { e with Count := e.Count + 1 }
    let e2 : RequestEntry := { e1 with Expiration := Add input r.windowSize }
    let entries := r.entries.set r.currentIndex.toNat (some e2)
    .ok ({ r with entries := entries }, sumLoop input entries 0)

/-- The loop `for i, entry := range r.entries` of `ResetTimer`: `entry.Expiration`
dereferences the pointer, an expired entry is replaced by `&RequestEntry{}`. -/
def resetLoop (currentTime : Int) :
    List (Option RequestEntry) → Except Panic (List (Option RequestEntry))
  | [] => .ok []
  | none :: _ => .error .nilDereference
  | some entry :: rest =>
    let slot := if Before entry.Expiration currentTime then some RequestEntry.zero else some entry
    match resetLoop currentTime rest with
    | .error p => .error p
    | .ok rest1 => .ok (slot :: rest1)

/-- The tick body of `ResetTimer` with `currentTime := time.Now()`. -/
def ResetTimer (r : requestCounter) (currentTime : Int) : Except Panic requestCounter :=
  match resetLoop currentTime r.entries with
  | .error p => .error p
  | .ok entries => .ok { r with entries := entries }

/-- The slice `d` that `SaveStateToFile` encodes: `*v` for every non-nil `v`. -/
def SaveStateToFile (r : requestCounter) : List RequestEntry :=
  r.entries.foldl
    (fun d v => match v with
      | some e => d ++ [e]
      | none => d) []

/-- The loop of `LoadStateFromFile` over the decoded slice, with the counter `j`. -/
def loadLoop (currentTime : Int) :
    List RequestEntry → requestCounter → Int → Except Panic requestCounter
  | [], r, _ => .ok r
  | entry :: rest, r, j =>
    if After entry.Expiration currentTime then
      match store r.entries j (some { Count := entry.Count, Expiration := entry.Expiration }) with
      | .error p => .error p
      | .ok entries => loadLoop currentTime rest { r with entries := entries, currentIndex := j } (j + 1)
    else loadLoop currentTime rest r j

/-- The body of `LoadStateFromFile` once the file decoded to `d`, at `now := time.Now()`. -/
def LoadStateFromFile (r : requestCounter) (d : List RequestEntry) (now : Int) :
    Except Panic requestCounter :=
  let currentTime := Add now (-1 * r.windowSize)
  loadLoop currentTime d r 0

/-! ## Specification-side notions and scenarios

The definitions below do not translate code: they fix the vocabulary of the
specification (the windowed sum, the current bucket, the retained entries), iterate
the tick bodies above, and name the concrete states used as examples. -/

/-- Specification of the windowed sum, per slot: what one slot of the buffer adds to
the sum at `now`, the `Count` of a present entry whose `Expiration` is strictly after
`now`, and 0 otherwise (absent entry, or `Expiration` at or before `now`). -/
def contribution (now : Int) : Option RequestEntry → Int
  | none => 0
  | some e => if now < e.Expiration then e.Count else 0

/-- Specification of the windowed sum of a buffer at `now`: the sum of the
contributions of its slots. -/
def windowSum (now : Int) (entries : List (Option RequestEntry)) : Int :=
  (entries.map (contribution now)).sum

/-- The current bucket is present: `currentIndex` is a valid index and the slot
holds the entry `e`. -/
def currentIs (r : requestCounter) (e : RequestEntry) : Prop :=
  0 ≤ r.currentIndex ∧ r.entries[r.currentIndex.toNat]? = some (some e)

instance (r : requestCounter) (e : RequestEntry) : Decidable (currentIs r e) := by
  unfold currentIs; infer_instance

/-- One second, in nanoseconds (`time.Second`). -/
def second : Int := 1000000000

/-- The entries of a decoded snapshot `d` that `LoadStateFromFile` retains at `now`:
those whose `Expiration` is after `now - windowSize`, in their order in `d`. -/
def retained (now wsize : Int) (d : List RequestEntry) : List RequestEntry :=
  d.filter (fun e => decide (now - wsize < e.Expiration))

/-- The state after `n` ticks of the rotation loop, `RotateWindow` run `n` times. -/
def rotateN : Nat → requestCounter → Except Panic requestCounter
  | 0, r => .ok r
  | n + 1, r =>
    match rotateN n r with
    | .error p => .error p
    | .ok r1 => RotateWindow r1

/-- The loop of `ProcessRequests` on the successive inputs of the input channel: the
final state and the totals sent on the output channel, in order. -/
def processAll (r : requestCounter) : List Int → Except Panic (requestCounter × List Int)
  | [] => .ok (r, [])
  | input :: rest =>
    match ProcessRequests r input with
    | .error p => .error p
    | .ok (r1, total) =>
      match processAll r1 rest with
      | .error p => .error p
      | .ok (r2, totals) => .ok (r2, total :: totals)

/-- The counter of `TestProcessRequests`, with `time.Now()` taken as 100 seconds: one
bucket with count 1 that expired two seconds ago, window sixty seconds. -/
def processTestCounter : requestCounter :=
  { entries := [some ⟨1, 98 * second⟩]
    precisionLevel := second
    windowSize := 60 * second
    currentIndex := 0
    filePath := "" }

/-- A two-bucket counter with window 60: the current bucket (index 0) holds count 1
with expiration 5, the other bucket holds count 7 with expiration 10. -/
def twoBuckets : requestCounter :=
  { entries := [some ⟨1, 5⟩, some ⟨7, 10⟩]
    precisionLevel := 30
    windowSize := 60
    currentIndex := 0
    filePath := "./counter/counter.gob" }

/-- The counter of `TestRotateWindow`, with `time.Now()` taken as 100 seconds: three
buckets with counts 1, 2, 1, precision one second, `currentIndex = 0`. -/
def rotateTestCounter : requestCounter :=
  { entries := [some ⟨1, 100 * second⟩, some ⟨2, 99 * second⟩, some ⟨1, 98 * second⟩]
    precisionLevel := second
    windowSize := 0
    currentIndex := 0
    filePath := "" }

/-- A one-bucket counter whose bucket holds count 3 with expiration 10. -/
def oneBucket : requestCounter :=
  { entries := [some ⟨3, 10⟩]
    precisionLevel := 60
    windowSize := 60
    currentIndex := 0
    filePath := "./counter/counter.gob" }

/-- A two-bucket counter whose second slot was never written (nil). -/
def halfFilled : requestCounter :=
  { entries := [some ⟨3, 5⟩, none]
    precisionLevel := 30
    windowSize := 60
    currentIndex := 0
    filePath := "./counter/counter.gob" }

/-- A three-bucket counter configured with precision 30 and window 60, a ratio of 2:
its buffer is longer than the buffer `NewRequestCounter` builds for that ratio. -/
def overlong : requestCounter :=
  { entries := [some ⟨1, 100⟩, some ⟨2, 110⟩, some ⟨3, 120⟩]
    precisionLevel := 30
    windowSize := 60
    currentIndex := 0
    filePath := "./counter/counter.gob" }

/-- The counter `NewRequestCounter 1 3 "./counter"` returns. -/
def freshThree : requestCounter :=
  { entries := [none, none, none]
    precisionLevel := 1
    windowSize := 3
    currentIndex := 0
    filePath := "./counter/counter.gob" }

/-- The counter `NewRequestCounter 30 60 "./counter"` returns. -/
def freshTwo : requestCounter :=
  { entries := [none, none]
    precisionLevel := 30
    windowSize := 60
    currentIndex := 0
    filePath := "./counter/counter.gob" }

/-- A decoded snapshot of three entries. -/
def sampleSnapshot : List RequestEntry := [⟨1, 100⟩, ⟨2, 5⟩, ⟨3, 120⟩]

/-- A counter of precision 2 and window 6 (three buckets) after a full cycle of
rotations: every bucket is a cleared entry and `currentIndex` is back at 0. -/
def clearedThree : requestCounter :=
  { entries := [some ⟨0, 0⟩, some ⟨0, 0⟩, some ⟨0, 0⟩]
    precisionLevel := 2
    windowSize := 6
    currentIndex := 0
    filePath := "./counter/counter.gob" }

/-! ## Construction in `cmd/main.go`, sequences of steps, shutdown -/

/-- `util.UserInput`: the input values from the command line; `Precison` and
`WindowSize` are of type `time.Duration`. -/
structure UserInput where
  Address : String
  Port : String
  OutputFilePath : String
  Precison : Int
  WindowSize : Int
  deriving DecidableEq, Repr

/-- How the start of `main` can end without a counter: one of its two `log.Fatal`
calls, or a panic inside `NewRequestCounter`. -/
inductive StartError where
  | invalidAddress
  | invalidWindow
  | panic (p : Panic)
  deriving DecidableEq, Repr

/-- The start of `main`, up to `counter := pkg.NewRequestCounter(...)`.  `parseIP`
stands for `net.ParseIP(s) != nil`.  The address is validated first, then
`input.WindowSize < input.Precison` is fatal, then the counter is constructed. -/
def main (parseIP : String → Bool) (input : UserInput) : Except StartError requestCounter :=
  if parseIP input.Address = false ∧ input.Address ≠ "localhost" then .error .invalidAddress
  else if input.WindowSize < input.Precison then .error .invalidWindow
  else
    match NewRequestCounter input.Precison input.WindowSize input.OutputFilePath with
    | .error p => .error (.panic p)
    | .ok counter => .ok counter

/-- One atomic step on the counter state: a request served by `ProcessRequests`, a
tick of `RotateWindow`, a tick of `ResetTimer`, or `LoadStateFromFile` on a decoded
snapshot. -/
inductive Step where
  | record (input : Int)
  | rotate
  | sweep (currentTime : Int)
  | restore (d : List RequestEntry) (now : Int)
  deriving DecidableEq, Repr

/-- The state after one step. -/
def Step.run (r : requestCounter) : Step → Except Panic requestCounter
  | .record input =>
    match ProcessRequests r input with
    | .error p => .error p
    | .ok (r1, _) => .ok r1
  | .rotate => RotateWindow r
  | .sweep currentTime => ResetTimer r currentTime
  | .restore d now => LoadStateFromFile r d now

/-- The state after a finite sequence of steps, in order. -/
def runSteps (r : requestCounter) : List Step → Except Panic requestCounter
  | [] => .ok r
  | step :: rest =>
    match step.run r with
    | .error p => .error p
    | .ok r1 => runSteps r1 rest

/-- The scenario of the specification, in seconds: two requests at `t = 0`, one
rotation, a request at `t = 1`, three more rotations, a request at `t = 10`.  The
result is the list of the four totals. -/
def scenario (r : requestCounter) : Except Panic (List Int) :=
  match ProcessRequests r 0 with
  | .error p => .error p
  | .ok (r1, total1) =>
    match ProcessRequests r1 0 with
    | .error p => .error p
    | .ok (r2, total2) =>
      match RotateWindow r2 with
      | .error p => .error p
      | .ok r3 =>
        match ProcessRequests r3 (1 * second) with
        | .error p => .error p
        | .ok (r4, total3) =>
          match rotateN 3 r4 with
          | .error p => .error p
          | .ok r5 =>
            match ProcessRequests r5 (10 * second) with
            | .error p => .error p
            | .ok (_, total4) => .ok [total1, total2, total3, total4]

/-- The goroutines started by `Initializaion`, in the order of the `go` statements.
Each runs `for { select { ... case <-r.shutdownCh: return } }`. -/
inductive Task where
  | SaveStatePeriodically
  | ResetTimer
  | RotateWindow
  | ProcessRequests
  deriving DecidableEq, Repr

/-- The running engine: the counter, the content of the snapshot file (if the file
exists) and the background tasks that have not returned. -/
structure Engine where
  counter : requestCounter
  file : Option (List RequestEntry)
  running : List Task
  deriving DecidableEq, Repr

/-- `Initializaion(c)` at time `now`: `c.LoadStateFromFile()`, which returns at once
when the file does not exist, then the four `go` statements. -/
def Initializaion (c : requestCounter) (file : Option (List RequestEntry)) (now : Int) :
    Except Panic Engine :=
  let tasks := [Task.SaveStatePeriodically, Task.ResetTimer, Task.RotateWindow,
    Task.ProcessRequests]
  match file with
  | none => .ok { counter := c, file := none, running := tasks }
  | some d =>
    match LoadStateFromFile c d now with
    | .error p => .error p
    | .ok c1 => .ok { counter := c1, file := some d, running := tasks }

/-- `HandleShutdown`: `r.SaveStateToFile()` overwrites the file, then
`r.shutdownCh <- struct{}{}` sends one value on the unbuffered channel
`make(chan struct{})`.  The send completes when one task, `receiver`, takes the value
in its `select`; that task returns.  The result is `none` when `receiver` is not a
running task (no such hand-over exists; with no running task the send blocks). -/
def HandleShutdown (e : Engine) (receiver : Task) : Option Engine :=
  let file := some (SaveStateToFile e.counter)
  if receiver ∈ e.running then
    some { counter := e.counter, file := file, running := e.running.erase receiver }
  else none

/-- The counter `NewRequestCounter second (3 * second) "./counter"` would be after
every slot was written and cleared: three cleared entries, `currentIndex = 0`. -/
def clearedUnit : requestCounter :=
  { entries := [some ⟨0, 0⟩, some ⟨0, 0⟩, some ⟨0, 0⟩]
    precisionLevel := second
    windowSize := 3 * second
    currentIndex := 0
    filePath := "./counter/counter.gob" }

/-- A configuration with `windowSize < precision`: window one second, precision two
seconds. -/
def badRatio : UserInput :=
  { Address := "0.0.0.0"
    Port := "8090"
    OutputFilePath := "./counter"
    Precison := 2 * second
    WindowSize := second }

/-! ## Basic facts about the embedding -/

theorem deref_of_get {entries : List (Option RequestEntry)} {i : Int} {e : RequestEntry}
    (h0 : 0 ≤ i) (h : entries[i.toNat]? = some (some e)) : deref entries i = .ok e := by
  simp [deref, not_lt.mpr h0, h]

theorem sumLoop_eq (input : Int) (entries : List (Option RequestEntry)) (acc : Int) :
    sumLoop input entries acc = acc + windowSum input entries := by
  induction entries generalizing acc with
  | nil => simp [sumLoop, windowSum]
  | cons entry rest ih =>
    cases entry with
    | none =>
      simp only [sumLoop, ih]
      simp [windowSum, contribution]
    | some e =>
      by_cases hv : input < e.Expiration
      · simp only [sumLoop, After, hv, decide_True, if_true, ih]
        simp [windowSum, contribution, hv]
        ring
      · simp only [sumLoop, After, hv, decide_False, ih]
        simp [windowSum, contribution, hv]

theorem ProcessRequests_of_current (r : requestCounter) (now : Int) (e : RequestEntry)
    (h : currentIs r e) :
    ProcessRequests r now =
      let entries := r.entries.set r.currentIndex.toNat (some ⟨e.Count + 1, now + r.windowSize⟩)
      .ok ({ r with entries := entries }, windowSum now entries) := by
  simp [ProcessRequests, deref_of_get h.1 h.2, sumLoop_eq, Add]

theorem windowSum_cons (now : Int) (x : Option RequestEntry)
    (entries : List (Option RequestEntry)) :
    windowSum now (x :: entries) = contribution now x + windowSum now entries := by
  simp [windowSum]

theorem windowSum_eraseIdx (now : Int) (entries : List (Option RequestEntry)) (i : Nat)
    (x : Option RequestEntry) (h : entries[i]? = some x) :
    windowSum now entries = contribution now x + windowSum now (entries.eraseIdx i) := by
  induction entries generalizing i with
  | nil => simp at h
  | cons y rest ih =>
    cases i with
    | zero =>
      simp only [List.getElem?_cons_zero, Option.some.injEq] at h
      simp [windowSum_cons, h]
    | succ k =>
      simp only [List.getElem?_cons_succ] at h
      simp only [List.eraseIdx_cons_succ, windowSum_cons, ih k h]
      ring

theorem RotateWindow_of_valid (r : requestCounter) (h0 : 0 ≤ r.currentIndex)
    (hlt : r.currentIndex < r.entries.length) :
    RotateWindow r = .ok
      { r with
        entries := r.entries.set ((r.currentIndex + 1) % r.entries.length).toNat
          (some RequestEntry.zero)
        currentIndex := (r.currentIndex + 1) % r.entries.length } := by
  by_cases hw : r.currentIndex + 1 = r.entries.length
  · have hm : (r.currentIndex + 1) % (r.entries.length : Int) = 0 := by
      rw [hw]; exact Int.emod_self
    have hpos : (0 : Int) < r.entries.length := by omega
    simp [RotateWindow, store, hw, hm, hpos]
  · have hm : (r.currentIndex + 1) % (r.entries.length : Int) = r.currentIndex + 1 :=
      Int.emod_eq_of_lt (by omega) (by omega)
    have hr : 0 ≤ r.currentIndex + 1 ∧ r.currentIndex + 1 < (r.entries.length : Int) :=
      ⟨by omega, by omega⟩
    simp [RotateWindow, store, hw, hm, hr]

theorem resetLoop_of_present (now : Int) (entries : List (Option RequestEntry))
    (hall : ∀ slot ∈ entries, slot ≠ none) :
    ∃ entries1, resetLoop now entries = .ok entries1 ∧
      entries1.length = entries.length ∧
      ∀ (i : Nat) (e : RequestEntry), entries[i]? = some (some e) →
        (e.Expiration < now → entries1[i]? = some (some ⟨0, 0⟩)) ∧
        (now ≤ e.Expiration → entries1[i]? = some (some e)) := by
  induction entries with
  | nil => exact ⟨[], rfl, rfl, by simp⟩
  | cons slot rest ih =>
    obtain ⟨rest1, hrest, hlen, hget⟩ :=
      ih (fun x hx => hall x (List.mem_cons_of_mem _ hx))
    cases slot with
    | none => exact absurd rfl (hall none (List.mem_cons_self _ _))
    | some entry =>
      by_cases hb : entry.Expiration < now
      · refine ⟨some RequestEntry.zero :: rest1, ?_, by simp [hlen], ?_⟩
        · simp [resetLoop, hrest, Before, hb]
        · intro i e hi
          cases i with
          | zero =>
            simp only [List.getElem?_cons_zero, Option.some.injEq] at hi
            subst hi
            exact ⟨fun _ => by simp [RequestEntry.zero], fun hle => absurd hb (not_lt.mpr hle)⟩
          | succ k => simpa using hget k e (by simpa using hi)
      · refine ⟨some entry :: rest1, ?_, by simp [hlen], ?_⟩
        · simp [resetLoop, hrest, Before, hb]
        · intro i e hi
          cases i with
          | zero =>
            simp only [List.getElem?_cons_zero, Option.some.injEq] at hi
            subst hi
            exact ⟨fun hlt => absurd hlt hb, fun _ => by simp⟩
          | succ k => simpa using hget k e (by simpa using hi)

theorem SaveStateToFile_foldl (entries : List (Option RequestEntry)) (d : List RequestEntry) :
    entries.foldl
      (fun d v => match v with
        | some e => d ++ [e]
        | none => d) d = d ++ entries.filterMap id := by
  induction entries generalizing d with
  | nil => simp
  | cons v rest ih =>
    cases v with
    | none => simp [ih]
    | some e => simp [ih]

theorem SaveStateToFile_eq (r : requestCounter) :
    SaveStateToFile r = r.entries.filterMap id := by
  simp [SaveStateToFile, SaveStateToFile_foldl]

theorem loadLoop_spec (currentTime : Int) (d : List RequestEntry) (r : requestCounter)
    (pre suf : List (Option RequestEntry)) (hr : r.entries = pre ++ suf)
    (hfit : (d.filter (fun e => decide (currentTime < e.Expiration))).length ≤ suf.length) :
    ∃ r1, loadLoop currentTime d r pre.length = .ok r1 ∧
      r1.entries = pre ++ (d.filter (fun e => decide (currentTime < e.Expiration))).map some
        ++ suf.drop (d.filter (fun e => decide (currentTime < e.Expiration))).length ∧
      r1.currentIndex =
        (if (d.filter (fun e => decide (currentTime < e.Expiration))).length = 0
          then r.currentIndex
          else (pre.length : Int)
            + (d.filter (fun e => decide (currentTime < e.Expiration))).length - 1) ∧
      r1.precisionLevel = r.precisionLevel ∧ r1.windowSize = r.windowSize ∧
      r1.filePath = r.filePath := by
  induction d generalizing r pre suf with
  | nil => exact ⟨r, rfl, by simp [hr], by simp, rfl, rfl, rfl⟩
  | cons entry rest ih =>
    by_cases hk : currentTime < entry.Expiration
    · simp only [List.filter_cons, hk, decide_True, if_true, List.length_cons] at hfit ⊢
      cases suf with
      | nil => simp at hfit
      | cons s suf1 =>
        have hrange : (0 : Int) ≤ pre.length ∧ (pre.length : Int) < r.entries.length := by
          constructor
          · omega
          · rw [hr]; simp
        have hset : r.entries.set pre.length (some entry) = (pre ++ [some entry]) ++ suf1 := by
          rw [hr]; simp
        have hfit1 : (rest.filter (fun e => decide (currentTime < e.Expiration))).length
            ≤ suf1.length := by
          simp only [List.length_cons] at hfit; omega
        obtain ⟨r1, hload, hent, hidx, hp, hw, hf⟩ :=
          ih { r with entries := r.entries.set pre.length (some entry)
                      currentIndex := pre.length } (pre ++ [some entry]) suf1 hset hfit1
        refine ⟨r1, ?_, ?_, ?_, hp, hw, hf⟩
        · simp only [loadLoop, After, hk, decide_True, if_true, store, hrange, and_self,
            Int.toNat_ofNat]
          simpa using hload
        · rw [hent]; simp
        · rw [hidx]
          simp only [List.length_append, List.length_singleton, Nat.succ_ne_zero, if_false]
          split
          · rename_i hz; rw [hz]; simp
          · push_cast; ring
    · simp only [List.filter_cons, hk, decide_False] at hfit ⊢
      obtain ⟨r1, hload, hrest⟩ := ih r pre suf hr hfit
      refine ⟨r1, ?_, hrest⟩
      simp only [loadLoop, After, hk, decide_False]
      exact hload

theorem NewRequestCounter_ok {precison wsize : Int} {filePath : String} {r : requestCounter}
    (hnew : NewRequestCounter precison wsize filePath = .ok r) :
    r.entries = List.replicate (Int.tdiv wsize precison).toNat none ∧
      r.precisionLevel = precison ∧ r.windowSize = wsize ∧ r.currentIndex = 0 := by
  unfold NewRequestCounter at hnew
  split at hnew
  · exact absurd hnew (by simp)
  · simp only at hnew
    split at hnew
    · exact absurd hnew (by simp)
    · simp only [Except.ok.injEq] at hnew
      subst hnew
      exact ⟨rfl, rfl, rfl, rfl⟩

theorem LoadStateFromFile_fresh (precison wsize : Int) (filePath : String)
    (r : requestCounter) (d : List RequestEntry) (now : Int)
    (hnew : NewRequestCounter precison wsize filePath = .ok r)
    (hfit : (retained now wsize d).length ≤ r.entries.length) :
    ∃ r1, LoadStateFromFile r d now = .ok r1 ∧
      r1.entries = (retained now wsize d).map some
        ++ List.replicate (r.entries.length - (retained now wsize d).length) none ∧
      r1.currentIndex =
        (if (retained now wsize d).length = 0 then 0
          else ((retained now wsize d).length : Int) - 1) := by
  obtain ⟨hent, -, hw, hci⟩ := NewRequestCounter_ok hnew
  have hct : Add now (-1 * r.windowSize) = now - wsize := by
    rw [hw]; simp only [Add]; ring
  obtain ⟨r1, hload, hent1, hidx, -, -, -⟩ :=
    loadLoop_spec (now - wsize) d r [] r.entries rfl hfit
  refine ⟨r1, ?_, ?_, ?_⟩
  · simp only [LoadStateFromFile, hct]
    simpa using hload
  · rw [hent1]
    simp only [retained, List.nil_append]
    congr 1
    rw [hent, List.drop_replicate, List.length_replicate]
  · rw [hidx, hci]
    simp [retained]

theorem eraseIdx_set_self {α : Type} (l : List α) (i : Nat) (a : α) :
    (l.set i a).eraseIdx i = l.eraseIdx i := by
  induction l generalizing i with
  | nil => simp
  | cons x rest ih =>
    cases i with
    | zero => simp
    | succ k => simp [ih]

theorem currentIs_lt {r : requestCounter} {e : RequestEntry} (h : currentIs r e) :
    r.currentIndex.toNat < r.entries.length := by
  by_contra hc
  have := h.2
  rw [List.getElem?_eq_none (by omega)] at this
  exact absurd this (by simp)

theorem windowSum_eq_current_add (r : requestCounter) (now : Int) (e : RequestEntry)
    (h : currentIs r e) :
    windowSum now r.entries
      = contribution now (some e) + windowSum now (r.entries.eraseIdx r.currentIndex.toNat) :=
  windowSum_eraseIdx now r.entries r.currentIndex.toNat (some e) h.2

theorem ProcessRequests_total (r : requestCounter) (now : Int) (e : RequestEntry)
    (h : currentIs r e) (hw : 0 < r.windowSize) :
    ProcessRequests r now = .ok
      ({ r with entries := (r.entries.set r.currentIndex.toNat
           (some ⟨e.Count + 1, now + r.windowSize⟩)) },
       e.Count + 1 + windowSum now (r.entries.eraseIdx r.currentIndex.toNat)) := by
  rw [ProcessRequests_of_current r now e h]
  have hget : (r.entries.set r.currentIndex.toNat
      (some ⟨e.Count + 1, now + r.windowSize⟩))[r.currentIndex.toNat]?
        = some (some ⟨e.Count + 1, now + r.windowSize⟩) :=
    List.getElem?_set_self (currentIs_lt h)
  have hv : now < now + r.windowSize := by omega
  simp only [windowSum_eraseIdx now _ _ _ hget, eraseIdx_set_self, contribution, hv, if_true]

theorem processAll_same_instant (now : Int) (N : Nat) (r : requestCounter) (e : RequestEntry)
    (h : currentIs r e) (hw : 0 < r.windowSize) :
    ∃ r1, processAll r (List.replicate N now) = .ok
      (r1, (List.range N).map (fun k : Nat =>
        (k : Int) + 1 + (e.Count + windowSum now (r.entries.eraseIdx r.currentIndex.toNat)))) := by
  induction N generalizing r e with
  | zero => exact ⟨r, rfl⟩
  | succ N ih =>
    have hlt := currentIs_lt h
    have hcur : currentIs
        { r with entries := (r.entries.set r.currentIndex.toNat
            (some ⟨e.Count + 1, now + r.windowSize⟩)) }
        ⟨e.Count + 1, now + r.windowSize⟩ :=
      ⟨h.1, List.getElem?_set_self hlt⟩
    obtain ⟨r1, hr1⟩ := ih _ _ hcur hw
    simp only [eraseIdx_set_self] at hr1
    have hlist : (List.range (N + 1)).map (fun k : Nat =>
          (k : Int) + 1 + (e.Count + windowSum now (r.entries.eraseIdx r.currentIndex.toNat)))
        = (e.Count + 1 + windowSum now (r.entries.eraseIdx r.currentIndex.toNat)) ::
          (List.range N).map (fun k : Nat =>
            (k : Int) + 1
              + (e.Count + 1 + windowSum now (r.entries.eraseIdx r.currentIndex.toNat))) := by
      rw [List.range_succ_eq_map, List.map_cons, List.map_map]
      congr 1
      · push_cast; ring
      · apply List.map_congr_left
        intro k _
        simp only [Function.comp, Nat.succ_eq_add_one]
        push_cast
        ring
    refine ⟨r1, ?_⟩
    rw [hlist]
    simp only [List.replicate_succ, processAll, ProcessRequests_total r now e h hw, hr1]

theorem emod_shift_ne (i j L : Int) (h0 : 0 ≤ i) (hi : i < L) (hj0 : 0 < j) (hj : j < L) :
    (i + j) % L ≠ i := by
  by_cases hlt : i + j < L
  · rw [Int.emod_eq_of_lt (by omega) hlt]; omega
  · have hsplit : i + j = (i + j - L) + 1 * L := by ring
    rw [hsplit, Int.add_mul_emod_self, Int.emod_eq_of_lt (by omega) (by omega)]
    omega

theorem rotateN_keeps_bucket (r : requestCounter) (m : Nat) (h0 : 0 ≤ r.currentIndex)
    (hlt : r.currentIndex < r.entries.length) (hm : (m : Int) < r.entries.length) :
    ∃ r1, rotateN m r = .ok r1 ∧
      r1.entries.length = r.entries.length ∧
      r1.currentIndex = (r.currentIndex + m) % r.entries.length ∧
      r1.entries[r.currentIndex.toNat]? = r.entries[r.currentIndex.toNat]? := by
  have hL : (0 : Int) < r.entries.length := by omega
  induction m with
  | zero => exact ⟨r, rfl, rfl, by simp [Int.emod_eq_of_lt h0 hlt], rfl⟩
  | succ m ih =>
    obtain ⟨r1, hr1, hlen, hidx, hkeep⟩ := ih (by push_cast at hm; omega)
    have h0r : 0 ≤ r1.currentIndex := by
      rw [hidx]; exact Int.emod_nonneg _ (by omega)
    have hltr : r1.currentIndex < r1.entries.length := by
      rw [hidx, hlen]; exact Int.emod_lt_of_pos _ hL
    have hnext : (r1.currentIndex + 1) % (r1.entries.length : Int)
        = (r.currentIndex + (m + 1 : Nat)) % (r.entries.length : Int) := by
      rw [hidx, hlen, Int.emod_add_emod]
      push_cast
      ring_nf
    have hstep := RotateWindow_of_valid r1 h0r hltr
    rw [hnext] at hstep
    have hne : ((r.currentIndex + (m + 1 : Nat)) % (r.entries.length : Int)).toNat
        ≠ r.currentIndex.toNat := by
      have h1 := emod_shift_ne r.currentIndex (m + 1 : Nat) r.entries.length h0 hlt
        (by push_cast; omega) hm
      have h2 := Int.emod_nonneg (r.currentIndex + (m + 1 : Nat)) (ne_of_gt hL)
      omega
    refine ⟨{ r1 with
        entries := r1.entries.set
          ((r.currentIndex + (m + 1 : Nat)) % (r.entries.length : Int)).toNat
          (some RequestEntry.zero)
        currentIndex := (r.currentIndex + (m + 1 : Nat)) % (r.entries.length : Int) },
      ?_, ?_, rfl, ?_⟩
    · simp only [rotateN, hr1]
      exact hstep
    · simp [hlen]
    · show (r1.entries.set _ _)[r.currentIndex.toNat]? = _
      rw [List.getElem?_set_ne hne, hkeep]

theorem getElem?_lt_of_eq_some {α : Type} {l : List α} {i : Nat} {a : α}
    (h : l[i]? = some a) : i < l.length := by
  by_contra hc
  rw [List.getElem?_eq_none (by omega)] at h
  exact absurd h (by simp)

theorem windowSum_set_cleared (now : Int) (entries : List (Option RequestEntry)) (i : Nat)
    (hi : entries[i]? = some none) :
    windowSum now (entries.set i (some ⟨0, 0⟩)) = windowSum now entries := by
  have hlt := getElem?_lt_of_eq_some hi
  have hset : (entries.set i (some ⟨0, 0⟩))[i]? = some (some ⟨0, 0⟩) :=
    List.getElem?_set_self hlt
  rw [windowSum_eraseIdx now _ i _ hset, windowSum_eraseIdx now entries i _ hi,
    eraseIdx_set_self]
  simp [contribution]

theorem filterMap_set_cleared (entries : List (Option RequestEntry)) (i : Nat)
    (e : RequestEntry) (hi : entries[i]? = some none) :
    ((entries.set i (some e)).filterMap id).length = (entries.filterMap id).length + 1 ∧
      e ∈ (entries.set i (some e)).filterMap id := by
  induction entries generalizing i with
  | nil => simp at hi
  | cons x rest ih =>
    cases i with
    | zero =>
      simp only [List.getElem?_cons_zero, Option.some.injEq] at hi
      subst hi
      simp
    | succ k =>
      simp only [List.getElem?_cons_succ] at hi
      obtain ⟨h1, h2⟩ := ih k hi
      cases x with
      | none =>
        simp only [List.set_cons_succ, List.filterMap_cons, id]
        exact ⟨h1, h2⟩
      | some y =>
        simp only [List.set_cons_succ, List.filterMap_cons, id, List.length_cons,
          List.mem_cons]
        exact ⟨by omega, Or.inr h2⟩

theorem deref_set_ne (entries : List (Option RequestEntry)) (i : Nat) (c : Int)
    (p : Option RequestEntry) (hne : c ≠ (i : Int)) :
    deref (entries.set i p) c = deref entries c := by
  unfold deref
  by_cases hc : c < 0
  · simp [hc]
  · have hi : i ≠ c.toNat := by omega
    simp only [hc, if_false, List.getElem?_set_ne hi]

theorem ProcessRequests_set_cleared (r : requestCounter) (i : Nat) (now : Int)
    (hi : r.entries[i]? = some none) (hne : r.currentIndex ≠ (i : Int)) :
    (ProcessRequests { r with entries := r.entries.set i (some ⟨0, 0⟩) } now).map Prod.snd
      = (ProcessRequests r now).map Prod.snd := by
  simp only [ProcessRequests, deref_set_ne r.entries i r.currentIndex _ hne]
  cases hd : deref r.entries r.currentIndex with
  | error p => rfl
  | ok e =>
    have hc0 : ¬ r.currentIndex < 0 := by
      intro hneg
      simp [deref, hneg] at hd
    have hin : i ≠ r.currentIndex.toNat := by omega
    simp only [Except.map, sumLoop_eq, zero_add]
    rw [List.set_comm _ _ r.entries hin]
    congr 1
    apply windowSum_set_cleared
    rw [List.getElem?_set_ne (Ne.symm hin)]
    exact hi

/-- The part of the state that no step changes: buffer length, precision, window. -/
theorem ProcessRequests_shape {r r1 : requestCounter} {now total : Int}
    (h : ProcessRequests r now = .ok (r1, total)) :
    r1.entries.length = r.entries.length ∧ r1.precisionLevel = r.precisionLevel ∧
      r1.windowSize = r.windowSize ∧ r1.currentIndex = r.currentIndex := by
  unfold ProcessRequests at h
  split at h
  · exact absurd h (by simp)
  · simp only [Except.ok.injEq, Prod.mk.injEq] at h
    obtain ⟨h1, -⟩ := h
    subst h1
    simp

theorem store_ok {entries entries1 : List (Option RequestEntry)} {i : Int}
    {p : Option RequestEntry} (h : store entries i p = .ok entries1) :
    (0 ≤ i ∧ i < entries.length) ∧ entries1 = entries.set i.toNat p := by
  unfold store at h
  by_cases hr : 0 ≤ i ∧ i < (entries.length : Int)
  · rw [if_pos hr] at h
    exact ⟨hr, (Except.ok.inj h).symm⟩
  · rw [if_neg hr] at h
    exact absurd h (by simp)

theorem RotateWindow_shape {r r1 : requestCounter} (h : RotateWindow r = .ok r1) :
    r1.entries.length = r.entries.length ∧ r1.precisionLevel = r.precisionLevel ∧
      r1.windowSize = r.windowSize ∧
      0 ≤ r1.currentIndex ∧ r1.currentIndex < r1.entries.length := by
  unfold RotateWindow at h
  simp only at h
  generalize (if r.currentIndex + 1 = (r.entries.length : Int) then 0
    else r.currentIndex + 1) = ci at h
  cases hs : store r.entries ci (some RequestEntry.zero) with
  | error p =>
    rw [hs] at h
    exact absurd h (by simp)
  | ok entries1 =>
    rw [hs] at h
    simp only [Except.ok.injEq] at h
    subst h
    obtain ⟨hr, he⟩ := store_ok hs
    subst he
    simp only [List.length_set]
    exact ⟨trivial, trivial, trivial, hr.1, hr.2⟩

theorem resetLoop_length {now : Int} {entries entries1 : List (Option RequestEntry)}
    (h : resetLoop now entries = .ok entries1) : entries1.length = entries.length := by
  induction entries generalizing entries1 with
  | nil =>
    simp only [resetLoop, Except.ok.injEq] at h
    subst h; rfl
  | cons slot rest ih =>
    cases slot with
    | none => simp [resetLoop] at h
    | some entry =>
      simp only [resetLoop] at h
      split at h
      · exact absurd h (by simp)
      · rename_i rest1 hrest
        simp only [Except.ok.injEq] at h
        subst h
        simp [ih hrest]

theorem ResetTimer_shape {r r1 : requestCounter} {now : Int} (h : ResetTimer r now = .ok r1) :
    r1.entries.length = r.entries.length ∧ r1.precisionLevel = r.precisionLevel ∧
      r1.windowSize = r.windowSize ∧ r1.currentIndex = r.currentIndex := by
  unfold ResetTimer at h
  split at h
  · exact absurd h (by simp)
  · rename_i entries hloop
    simp only [Except.ok.injEq] at h
    subst h
    exact ⟨resetLoop_length hloop, rfl, rfl, rfl⟩

theorem loadLoop_shape {currentTime : Int} {d : List RequestEntry} {r r1 : requestCounter}
    {j : Int} (h : loadLoop currentTime d r j = .ok r1) :
    r1.entries.length = r.entries.length ∧ r1.precisionLevel = r.precisionLevel ∧
      r1.windowSize = r.windowSize := by
  induction d generalizing r j with
  | nil =>
    simp only [loadLoop, Except.ok.injEq] at h
    subst h; exact ⟨rfl, rfl, rfl⟩
  | cons entry rest ih =>
    simp only [loadLoop] at h
    by_cases hk : After entry.Expiration currentTime = true
    · rw [if_pos hk] at h
      cases hs : store r.entries j (some ⟨entry.Count, entry.Expiration⟩) with
      | error p =>
        rw [hs] at h
        exact absurd h (by simp)
      | ok entries1 =>
        rw [hs] at h
        obtain ⟨h1, h2, h3⟩ := ih h
        obtain ⟨-, he⟩ := store_ok hs
        subst he
        simp only [List.length_set] at h1
        exact ⟨h1, h2, h3⟩
    · rw [if_neg hk] at h
      exact ih h

theorem Step_run_shape {r r1 : requestCounter} {step : Step} (h : step.run r = .ok r1) :
    r1.entries.length = r.entries.length ∧ r1.precisionLevel = r.precisionLevel ∧
      r1.windowSize = r.windowSize := by
  cases step with
  | record input =>
    simp only [Step.run] at h
    split at h
    · exact absurd h (by simp)
    · rename_i r2 total hp
      simp only [Except.ok.injEq] at h
      subst h
      obtain ⟨h1, h2, h3, -⟩ := ProcessRequests_shape hp
      exact ⟨h1, h2, h3⟩
  | rotate =>
    obtain ⟨h1, h2, h3, -⟩ := RotateWindow_shape h
    exact ⟨h1, h2, h3⟩
  | sweep currentTime =>
    obtain ⟨h1, h2, h3, -⟩ := ResetTimer_shape h
    exact ⟨h1, h2, h3⟩
  | restore d now => exact loadLoop_shape h

theorem runSteps_shape {steps : List Step} {r r1 : requestCounter}
    (h : runSteps r steps = .ok r1) :
    r1.entries.length = r.entries.length ∧ r1.precisionLevel = r.precisionLevel ∧
      r1.windowSize = r.windowSize := by
  induction steps generalizing r with
  | nil =>
    simp only [runSteps, Except.ok.injEq] at h
    subst h; exact ⟨rfl, rfl, rfl⟩
  | cons step rest ih =>
    simp only [runSteps] at h
    split at h
    · exact absurd h (by simp)
    · rename_i r2 hstep
      obtain ⟨h1, h2, h3⟩ := ih h
      obtain ⟨g1, g2, g3⟩ := Step_run_shape hstep
      exact ⟨h1.trans g1, h2.trans g2, h3.trans g3⟩

theorem runSteps_rotations (n : Nat) (r : requestCounter) (h0 : 0 ≤ r.currentIndex)
    (hlt : r.currentIndex < r.entries.length) :
    ∃ r1, runSteps r (List.replicate n Step.rotate) = .ok r1 := by
  induction n generalizing r with
  | zero => exact ⟨r, rfl⟩
  | succ n ih =>
    have hstep := RotateWindow_of_valid r h0 hlt
    obtain ⟨-, -, -, g0, glt⟩ := RotateWindow_shape hstep
    obtain ⟨r1, hr1⟩ := ih _ g0 glt
    exact ⟨r1, by simp only [List.replicate_succ, runSteps, Step.run, hstep]; exact hr1⟩

theorem resetLoop_windowSum {now t : Int} {entries entries1 : List (Option RequestEntry)}
    (h : resetLoop now entries = .ok entries1) (ht : now ≤ t) :
    windowSum t entries1 = windowSum t entries := by
  induction entries generalizing entries1 with
  | nil =>
    simp only [resetLoop, Except.ok.injEq] at h
    subst h; rfl
  | cons slot rest ih =>
    cases slot with
    | none => simp [resetLoop] at h
    | some entry =>
      simp only [resetLoop] at h
      cases hrest : resetLoop now rest with
      | error p =>
        rw [hrest] at h
        exact absurd h (by simp)
      | ok rest1 =>
        rw [hrest] at h
        simp only [Except.ok.injEq] at h
        subst h
        rw [windowSum_cons, windowSum_cons, ih hrest]
        congr 1
        by_cases hb : entry.Expiration < now
        · have hnot : ¬ t < entry.Expiration := by omega
          simp [Before, hb, contribution, RequestEntry.zero, hnot]
        · simp [Before, hb]

theorem resetLoop_error {now : Int} {entries : List (Option RequestEntry)} {p : Panic}
    (h : resetLoop now entries = .error p) : p = .nilDereference := by
  induction entries with
  | nil => simp [resetLoop] at h
  | cons slot rest ih =>
    cases slot with
    | none =>
      simp only [resetLoop, Except.error.injEq] at h
      exact h.symm
    | some entry =>
      simp only [resetLoop] at h
      cases hrest : resetLoop now rest with
      | error q =>
        rw [hrest] at h
        simp only [Except.error.injEq] at h
        subst h
        exact ih hrest
      | ok rest1 =>
        rw [hrest] at h
        exact absurd h (by simp)

theorem resetLoop_ok_present {now : Int} {entries entries1 : List (Option RequestEntry)}
    (h : resetLoop now entries = .ok entries1) : ∀ slot ∈ entries, slot ≠ none := by
  induction entries generalizing entries1 with
  | nil => simp
  | cons slot rest ih =>
    cases slot with
    | none => simp [resetLoop] at h
    | some entry =>
      simp only [resetLoop] at h
      cases hrest : resetLoop now rest with
      | error p =>
        rw [hrest] at h
        exact absurd h (by simp)
      | ok rest1 =>
        intro x hx
        rcases List.mem_cons.mp hx with hx | hx
        · rw [hx]; simp
        · exact ih hrest x hx

theorem deref_ok {entries : List (Option RequestEntry)} {i : Int} {e : RequestEntry}
    (h : deref entries i = .ok e) : 0 ≤ i ∧ entries[i.toNat]? = some (some e) := by
  unfold deref at h
  by_cases hneg : i < 0
  · rw [if_pos hneg] at h
    exact absurd h (by simp)
  · rw [if_neg hneg] at h
    refine ⟨by omega, ?_⟩
    cases hg : entries[i.toNat]? with
    | none => rw [hg] at h; exact absurd h (by simp)
    | some x =>
      cases x with
      | none => rw [hg] at h; exact absurd h (by simp)
      | some y =>
        rw [hg] at h
        simp only [Except.ok.injEq] at h
        rw [h]

theorem deref_in_range {entries : List (Option RequestEntry)} {i : Int}
    (h0 : 0 ≤ i) (hlt : i < entries.length) :
    deref entries i ≠ .error .indexOutOfRange := by
  unfold deref
  rw [if_neg (by omega)]
  have hn : i.toNat < entries.length := by omega
  rw [List.getElem?_eq_getElem hn]
  cases entries[i.toNat] with
  | none => simp
  | some e => simp

theorem loadLoop_overflow (currentTime : Int) (d : List RequestEntry) (r : requestCounter)
    (pre suf : List (Option RequestEntry)) (hr : r.entries = pre ++ suf)
    (hbig : suf.length < (d.filter (fun e => decide (currentTime < e.Expiration))).length) :
    loadLoop currentTime d r pre.length = .error .indexOutOfRange := by
  induction d generalizing r pre suf with
  | nil => simp at hbig
  | cons entry rest ih =>
    by_cases hk : currentTime < entry.Expiration
    · simp only [List.filter_cons, hk, decide_True, if_true, List.length_cons] at hbig
      cases suf with
      | nil =>
        have hout : ¬ ((0 : Int) ≤ pre.length ∧ (pre.length : Int) < r.entries.length) := by
          rw [hr]; simp
        simp only [loadLoop, After, hk, decide_True, if_true, store, hout, if_false]
      | cons x suf1 =>
        have hrange : (0 : Int) ≤ pre.length ∧ (pre.length : Int) < r.entries.length := by
          constructor
          · omega
          · rw [hr]; simp
        have hset : r.entries.set pre.length (some entry) = (pre ++ [some entry]) ++ suf1 := by
          rw [hr]; simp
        have hbig1 : suf1.length
            < (rest.filter (fun e => decide (currentTime < e.Expiration))).length := by
          simp only [List.length_cons] at hbig; omega
        have hrec := ih { r with entries := r.entries.set pre.length (some entry)
                                 currentIndex := pre.length } (pre ++ [some entry]) suf1
          hset hbig1
        simp only [loadLoop, After, hk, decide_True, if_true, store, hrange, and_self,
          Int.toNat_ofNat]
        simpa using hrec
    · simp only [List.filter_cons, hk, decide_False] at hbig
      simp only [loadLoop, After, hk, decide_False]
      exact ih r pre suf hr hbig

theorem LoadStateFromFile_any (r : requestCounter) (d : List RequestEntry) (now : Int) :
    ((retained now r.windowSize d).length ≤ r.entries.length →
      ∃ r1, LoadStateFromFile r d now = .ok r1 ∧
        r1.entries.length = r.entries.length ∧
        r1.currentIndex =
          (if (retained now r.windowSize d).length = 0 then r.currentIndex
            else ((retained now r.windowSize d).length : Int) - 1)) ∧
    (r.entries.length < (retained now r.windowSize d).length →
      LoadStateFromFile r d now = .error .indexOutOfRange) := by
  have hct : Add now (-1 * r.windowSize) = now - r.windowSize := by
    simp only [Add]; ring
  constructor
  · intro hfit
    obtain ⟨r1, hload, hent1, hidx, -, -, -⟩ :=
      loadLoop_spec (now - r.windowSize) d r [] r.entries rfl hfit
    refine ⟨r1, ?_, ?_, ?_⟩
    · simp only [LoadStateFromFile, hct]
      simpa using hload
    · rw [hent1]
      simp only [List.nil_append, List.length_append, List.length_map, List.length_drop]
      simp only [retained] at hfit
      omega
    · rw [hidx]
      simp [retained]
  · intro hbig
    have := loadLoop_overflow (now - r.windowSize) d r [] r.entries rfl hbig
    simp only [LoadStateFromFile, hct]
    simpa using this

/-! ## Claims -/

/-- C1. For every counter state whose current bucket is present and every timestamp
`now`, the record step succeeds, and the total it returns is the sum of `Count` over
the entries of the buffer, taken after the current bucket has been updated, whose
`Expiration` is strictly after `now`; absent entries and entries with `Expiration`
at or before `now` contribute 0. -/
theorem C1_total_is_window_sum (r : requestCounter) (now : Int) (e : RequestEntry)
    (h : currentIs r e) :
    ∃ r1 total, ProcessRequests r now = .ok (r1, total) ∧
      r1.entries = r.entries.set r.currentIndex.toNat
        (some ⟨e.Count + 1, now + r.windowSize⟩) ∧
      total = windowSum now r1.entries ∧
      contribution now none = 0 ∧
      (∀ x : RequestEntry, x.Expiration ≤ now → contribution now (some x) = 0) ∧
      (∀ x : RequestEntry, now < x.Expiration → contribution now (some x) = x.Count) := by
  refine ⟨_, _, ProcessRequests_of_current r now e h, rfl, rfl, rfl, ?_, ?_⟩
  · intro x hx
    simp [contribution, not_lt.mpr hx]
  · intro x hx
    simp [contribution, hx]

/-- Witness for C1: the counter of `TestProcessRequests` and a request at 100 seconds. -/
theorem C1_total_is_window_sum_witness :
    ∃ r1 total, ProcessRequests processTestCounter (100 * second) = .ok (r1, total) ∧
      r1.entries = processTestCounter.entries.set processTestCounter.currentIndex.toNat
        (some ⟨(⟨1, 98 * second⟩ : RequestEntry).Count + 1,
          100 * second + processTestCounter.windowSize⟩) ∧
      total = windowSum (100 * second) r1.entries ∧
      contribution (100 * second) none = 0 ∧
      (∀ x : RequestEntry, x.Expiration ≤ 100 * second →
        contribution (100 * second) (some x) = 0) ∧
      (∀ x : RequestEntry, 100 * second < x.Expiration →
        contribution (100 * second) (some x) = x.Count) :=
  C1_total_is_window_sum processTestCounter (100 * second) ⟨1, 98 * second⟩ (by decide)

/-- C2 (the code breaks the claim). For every precision and window size with
`windowSize ≥ precision > 0`, `NewRequestCounter` returns a counter whose buffer is
non-empty and holds only nil pointers, with `currentIndex = 0`; a record step on that
counter does not return a total: it panics with a nil dereference at
`r.entries[r.currentIndex].Count++`. -/
theorem C2_fresh_counter_record_panics (precison wsize : Int) (filePath : String)
    (now : Int) (hp : 0 < precison) (hw : precison ≤ wsize) :
    ∃ r, NewRequestCounter precison wsize filePath = .ok r ∧
      r.entries = List.replicate (wsize / precison).toNat none ∧
      0 < r.entries.length ∧ r.currentIndex = 0 ∧
      ProcessRequests r now = .error .nilDereference := by
  have hne : precison ≠ 0 := by omega
  have hdiv : Int.tdiv wsize precison = wsize / precison :=
    Int.tdiv_eq_ediv (by omega) (by omega)
  have h1 : 1 ≤ wsize / precison := by
    have := Int.ediv_le_ediv hp hw
    rwa [Int.ediv_self hne] at this
  have hpos : 0 < (wsize / precison).toNat := by omega
  have hnew : NewRequestCounter precison wsize filePath = .ok
      { entries := List.replicate (wsize / precison).toNat none
        precisionLevel := precison
        windowSize := wsize
        currentIndex := 0
        filePath := filePath ++ "/" ++ "counter.gob" } := by
    simp only [NewRequestCounter, hne, if_false, hdiv]
    rw [if_neg (by omega)]
  refine ⟨_, hnew, rfl, ?_, rfl, ?_⟩
  · simpa using hpos
  · simp [ProcessRequests, deref, hpos]

/-- Witness for C2: the default configuration of `cmd/main.go`, precision one second
and window sixty seconds. -/
theorem C2_fresh_counter_record_panics_witness :
    ∃ r, NewRequestCounter second (60 * second) "./counter" = .ok r ∧
      r.entries = List.replicate ((60 * second) / second).toNat none ∧
      0 < r.entries.length ∧ r.currentIndex = 0 ∧
      ProcessRequests r 0 = .error .nilDereference :=
  C2_fresh_counter_record_panics second (60 * second) "./counter" 0 (by decide) (by decide)

/-- C3 (amended). For every counter state whose current bucket is present, every
entry of the buffer other than the current bucket, with `Expiration = t0`, and every
timestamp `now`: the record step leaves that entry in place, the total it returns
excludes the entry's count when `now ≥ t0`, and includes it when `now < t0`. -/
theorem C3_expiration_strict_for_other_entries (r : requestCounter) (now : Int)
    (c e : RequestEntry) (i : Nat) (hc : currentIs r c) (hi : i ≠ r.currentIndex.toNat)
    (he : r.entries[i]? = some (some e)) :
    ∃ r1 total, ProcessRequests r now = .ok (r1, total) ∧
      r1.entries[i]? = some (some e) ∧
      (e.Expiration ≤ now → total = windowSum now (r1.entries.eraseIdx i)) ∧
      (now < e.Expiration → total = e.Count + windowSum now (r1.entries.eraseIdx i)) := by
  have hget : (r.entries.set r.currentIndex.toNat
      (some ⟨c.Count + 1, now + r.windowSize⟩))[i]? = some (some e) := by
    rw [List.getElem?_set_ne (Ne.symm hi)]; exact he
  refine ⟨_, _, ProcessRequests_of_current r now c hc, hget, ?_, ?_⟩
  · intro hle
    rw [windowSum_eraseIdx now _ i _ hget]
    simp [contribution, not_lt.mpr hle]
  · intro hlt
    rw [windowSum_eraseIdx now _ i _ hget]
    simp [contribution, hlt]

/-- Witness for C3: the second bucket of `twoBuckets` (count 7, expiration 10) at
`now = 7`. -/
theorem C3_expiration_strict_for_other_entries_witness :
    ∃ r1 total, ProcessRequests twoBuckets 7 = .ok (r1, total) ∧
      r1.entries[1]? = some (some ⟨7, 10⟩) ∧
      ((10 : Int) ≤ 7 → total = windowSum 7 (r1.entries.eraseIdx 1)) ∧
      ((7 : Int) < 10 → total = 7 + windowSum 7 (r1.entries.eraseIdx 1)) :=
  C3_expiration_strict_for_other_entries twoBuckets 7 ⟨1, 5⟩ ⟨7, 10⟩ 1
    (by decide) (by decide) (by decide)

/-- C3 (counterexample). In `twoBuckets` a record step at `now = 10` returns 2.  The
second bucket has `Expiration = 10`, so `now ≤ t0`, yet the total does not include its
count 7; the current bucket has `Expiration = 5`, so `now > t0`, yet the total is not
the sum over the other entries (which is 0): it counts the current bucket. -/
theorem C3_counterexample :
    ProcessRequests twoBuckets 10 =
      .ok ({ twoBuckets with entries := [some ⟨2, 70⟩, some ⟨7, 10⟩] }, 2) ∧
    twoBuckets.entries[1]? = some (some ⟨7, 10⟩) ∧ (10 : Int) ≤ 10 ∧
    (2 : Int) ≠ 7 + windowSum 10 ([some ⟨2, 70⟩, some ⟨7, 10⟩].eraseIdx 1) ∧
    twoBuckets.entries[0]? = some (some ⟨1, 5⟩) ∧ (10 : Int) > 5 ∧
    (2 : Int) ≠ windowSum 10 ([some ⟨2, 70⟩, some ⟨7, 10⟩].eraseIdx 0) := by
  decide

/-- C4. For every counter with buffer length `L ≥ 1` and `0 ≤ currentIndex < L`, and
every `n`, `n` rotation steps succeed, keep the buffer length, and leave
`currentIndex = (i + n) mod L` where `i` is the initial index, hence `n mod L` when
started at index 0; for `n ≥ 1` the bucket at the new `currentIndex` is a fresh empty
entry (count 0, zero expiration) whatever the buffer held before. -/
theorem C4_rotation_index_and_fresh_bucket (r : requestCounter) (n : Nat)
    (h0 : 0 ≤ r.currentIndex) (hlt : r.currentIndex < r.entries.length) :
    ∃ r1, rotateN n r = .ok r1 ∧
      r1.entries.length = r.entries.length ∧
      r1.currentIndex = (r.currentIndex + n) % r.entries.length ∧
      (r.currentIndex = 0 → r1.currentIndex = n % r.entries.length) ∧
      (1 ≤ n → r1.entries[r1.currentIndex.toNat]? = some (some ⟨0, 0⟩)) := by
  have hL : (0 : Int) < r.entries.length := by omega
  induction n with
  | zero =>
    refine ⟨r, rfl, rfl, ?_, ?_, ?_⟩
    · simp [Int.emod_eq_of_lt h0 hlt]
    · intro hz; simp [hz]
    · intro h; omega
  | succ n ih =>
    obtain ⟨r1, hr1, hlen, hidx, -, -⟩ := ih
    have h0r : 0 ≤ r1.currentIndex := by
      rw [hidx]; exact Int.emod_nonneg _ (by omega)
    have hltr : r1.currentIndex < r1.entries.length := by
      rw [hidx, hlen]; exact Int.emod_lt_of_pos _ hL
    have hnext : (r1.currentIndex + 1) % (r1.entries.length : Int)
        = (r.currentIndex + (n + 1 : Nat)) % (r.entries.length : Int) := by
      rw [hidx, hlen, Int.emod_add_emod]
      push_cast
      ring_nf
    have hstep := RotateWindow_of_valid r1 h0r hltr
    rw [hnext] at hstep
    have hres : rotateN (n + 1) r = .ok
        { r1 with
          entries := r1.entries.set
            ((r.currentIndex + (n + 1 : Nat)) % (r.entries.length : Int)).toNat
            (some RequestEntry.zero)
          currentIndex := (r.currentIndex + (n + 1 : Nat)) % (r.entries.length : Int) } := by
      simp only [rotateN, hr1]
      exact hstep
    refine ⟨_, hres, ?_, rfl, ?_, ?_⟩
    · simp [hlen]
    · intro hz; simp [hz]
    · intro _
      have hb : ((r.currentIndex + (n + 1 : Nat)) % (r.entries.length : Int)).toNat
          < r1.entries.length := by
        have h1 := Int.emod_nonneg (r.currentIndex + (n + 1 : Nat)) (ne_of_gt hL)
        have h2 := Int.emod_lt_of_pos (r.currentIndex + (n + 1 : Nat)) hL
        omega
      exact List.getElem?_set_self hb

/-- Witness for C4: the counter of `TestRotateWindow` after two ticks. -/
theorem C4_rotation_index_and_fresh_bucket_witness :
    ∃ r1, rotateN 2 rotateTestCounter = .ok r1 ∧
      r1.entries.length = rotateTestCounter.entries.length ∧
      r1.currentIndex
        = (rotateTestCounter.currentIndex + (2 : Nat)) % rotateTestCounter.entries.length ∧
      (rotateTestCounter.currentIndex = 0 →
        r1.currentIndex = (2 : Nat) % rotateTestCounter.entries.length) ∧
      (1 ≤ 2 → r1.entries[r1.currentIndex.toNat]? = some (some ⟨0, 0⟩)) :=
  C4_rotation_index_and_fresh_bucket rotateTestCounter 2 (by decide) (by decide)

/-- C5 (amended). For every counter state in which every slot of the buffer holds an
entry and every sweep time `now`, the sweep step succeeds, keeps the buffer length and
`currentIndex`, replaces every entry whose `Expiration` was strictly before `now` by a
fresh empty entry (count 0, zero expiration), and leaves every entry whose `Expiration`
was at or after `now` unchanged. -/
theorem C5_sweep_clears_strictly_expired (r : requestCounter) (now : Int)
    (hall : ∀ slot ∈ r.entries, slot ≠ none) :
    ∃ r1, ResetTimer r now = .ok r1 ∧
      r1.entries.length = r.entries.length ∧
      r1.currentIndex = r.currentIndex ∧
      ∀ (i : Nat) (e : RequestEntry), r.entries[i]? = some (some e) →
        (e.Expiration < now → r1.entries[i]? = some (some ⟨0, 0⟩)) ∧
        (now ≤ e.Expiration → r1.entries[i]? = some (some e)) := by
  obtain ⟨entries1, hloop, hlen, hget⟩ := resetLoop_of_present now r.entries hall
  exact ⟨{ r with entries := entries1 }, by simp [ResetTimer, hloop], hlen, rfl, hget⟩

/-- Witness for C5: the counter of `TestRotateWindow` swept at 99 seconds. -/
theorem C5_sweep_clears_strictly_expired_witness :
    ∃ r1, ResetTimer rotateTestCounter (99 * second) = .ok r1 ∧
      r1.entries.length = rotateTestCounter.entries.length ∧
      r1.currentIndex = rotateTestCounter.currentIndex ∧
      ∀ (i : Nat) (e : RequestEntry), rotateTestCounter.entries[i]? = some (some e) →
        (e.Expiration < 99 * second → r1.entries[i]? = some (some ⟨0, 0⟩)) ∧
        (99 * second ≤ e.Expiration → r1.entries[i]? = some (some e)) :=
  C5_sweep_clears_strictly_expired rotateTestCounter (99 * second) (by decide)

/-- C5 (counterexample). A sweep of `oneBucket` at `now = 10` leaves the entry with
`Expiration = 10`, which is at or before `now`, in place with its count 3; and a sweep
of `halfFilled`, whose second slot is nil, panics with a nil dereference. -/
theorem C5_counterexample :
    oneBucket.entries[0]? = some (some ⟨3, 10⟩) ∧ (10 : Int) ≤ 10 ∧
    ResetTimer oneBucket 10 = .ok oneBucket ∧
    ResetTimer halfFilled 10 = .error .nilDereference := by
  decide

/-- C6. For every decoded snapshot `d` loaded at time `now` into a freshly constructed
counter whose buffer is at least as long as the number `k` of retained entries (the
entries of `d` with `Expiration` after `now - windowSize`, in their order in `d`):
the load succeeds, the retained entries are written to the indices `0, ..., k-1` with
`Count` and `Expiration` preserved, every index `≥ k` stays empty (nil), and
`currentIndex` is `k-1` when `k ≥ 1` and stays 0 when `k = 0`. -/
theorem C6_restore_fills_prefix (precison wsize : Int) (filePath : String)
    (r : requestCounter) (d : List RequestEntry) (now : Int)
    (hnew : NewRequestCounter precison wsize filePath = .ok r)
    (hfit : (retained now wsize d).length ≤ r.entries.length) :
    ∃ r1, LoadStateFromFile r d now = .ok r1 ∧
      retained now wsize d = d.filter (fun e => decide (now - wsize < e.Expiration)) ∧
      r1.entries.length = r.entries.length ∧
      (∀ i, i < (retained now wsize d).length →
        r1.entries[i]? = ((retained now wsize d)[i]?).map some) ∧
      (∀ i, (retained now wsize d).length ≤ i → i < r.entries.length →
        r1.entries[i]? = some none) ∧
      r1.currentIndex =
        (if (retained now wsize d).length = 0 then 0
          else ((retained now wsize d).length : Int) - 1) := by
  obtain ⟨r1, hload, hent, hidx⟩ :=
    LoadStateFromFile_fresh precison wsize filePath r d now hnew hfit
  refine ⟨r1, hload, rfl, ?_, ?_, ?_, hidx⟩
  · rw [hent]; simp; omega
  · intro i hi
    rw [hent, List.getElem?_append_left (by simpa using hi)]
    simp
  · intro i hk hL
    rw [hent, List.getElem?_append_right (by simpa using hk)]
    simp only [List.length_map]
    rw [List.getElem?_replicate]
    simp; omega

/-- Witness for C6: `sampleSnapshot` loaded at `now = 105` into the fresh counter of
precision 1 and window 3; only the entry expiring at 120 is retained. -/
theorem C6_restore_fills_prefix_witness :
    ∃ r1, LoadStateFromFile freshThree sampleSnapshot 105 = .ok r1 ∧
      retained 105 3 sampleSnapshot
        = sampleSnapshot.filter (fun e => decide (105 - 3 < e.Expiration)) ∧
      r1.entries.length = freshThree.entries.length ∧
      (∀ i, i < (retained 105 3 sampleSnapshot).length →
        r1.entries[i]? = ((retained 105 3 sampleSnapshot)[i]?).map some) ∧
      (∀ i, (retained 105 3 sampleSnapshot).length ≤ i → i < freshThree.entries.length →
        r1.entries[i]? = some none) ∧
      r1.currentIndex =
        (if (retained 105 3 sampleSnapshot).length = 0 then 0
          else ((retained 105 3 sampleSnapshot).length : Int) - 1) :=
  C6_restore_fills_prefix 1 3 "./counter" freshThree sampleSnapshot 105
    (by decide) (by decide)

/-- C7 (amended). For every counter state and every restore time `now`, the snapshot
(`SaveStateToFile`) holds the present entries of the buffer with their `Count` and
`Expiration`, in buffer order; restoring it (`LoadStateFromFile`) into a fresh counter
of the same precision and window size, whose buffer is long enough for the retained
entries, succeeds and reconstructs, with the same `Count` and `Expiration`, exactly the
entries of the original buffer whose `Expiration` is after `now - windowSize`: an entry
is in the restored buffer if and only if it is in the original buffer and its
`Expiration` is after `now - windowSize`. -/
theorem C7_round_trip_keeps_window (r fresh : requestCounter) (filePath : String)
    (now : Int)
    (hnew : NewRequestCounter r.precisionLevel r.windowSize filePath = .ok fresh)
    (hfit : (retained now r.windowSize (SaveStateToFile r)).length ≤ fresh.entries.length) :
    SaveStateToFile r = r.entries.filterMap id ∧
    ∃ r1, LoadStateFromFile fresh (SaveStateToFile r) now = .ok r1 ∧
      r1.entries.filterMap id
        = (r.entries.filterMap id).filter (fun e => decide (now - r.windowSize < e.Expiration)) ∧
      ∀ e : RequestEntry,
        some e ∈ r1.entries ↔ (some e ∈ r.entries ∧ now - r.windowSize < e.Expiration) := by
  obtain ⟨r1, hload, hent, -⟩ :=
    LoadStateFromFile_fresh r.precisionLevel r.windowSize filePath fresh (SaveStateToFile r)
      now hnew hfit
  refine ⟨SaveStateToFile_eq r, r1, hload, ?_, ?_⟩
  · rw [hent, SaveStateToFile_eq]
    simp [retained, List.filterMap_append]
  · intro e
    rw [hent, SaveStateToFile_eq]
    simp [retained, List.mem_filter]

/-- Witness for C7: `twoBuckets` saved and restored at `now = 66` into the fresh counter
of precision 30 and window 60; the entry expiring at 5 is dropped, the entry expiring
at 10 is kept. -/
theorem C7_round_trip_keeps_window_witness :
    SaveStateToFile twoBuckets = twoBuckets.entries.filterMap id ∧
    ∃ r1, LoadStateFromFile freshTwo (SaveStateToFile twoBuckets) 66 = .ok r1 ∧
      r1.entries.filterMap id
        = (twoBuckets.entries.filterMap id).filter
            (fun e => decide (66 - twoBuckets.windowSize < e.Expiration)) ∧
      ∀ e : RequestEntry,
        some e ∈ r1.entries ↔
          (some e ∈ twoBuckets.entries ∧ 66 - twoBuckets.windowSize < e.Expiration) :=
  C7_round_trip_keeps_window twoBuckets freshTwo "./counter" 66 (by decide) (by decide)

/-- C7 (counterexample). `twoBuckets` (window 60) saved and restored at `now = 20` into
the fresh counter of the same precision and window: both entries, which expired at 5
and at 10 and so are expired at restore time, are in the restored buffer.  And
`overlong`, whose three entries are all retained at `now = 20`, cannot be restored into
the fresh two-slot buffer: the load panics with an index out of range. -/
theorem C7_counterexample :
    (NewRequestCounter twoBuckets.precisionLevel twoBuckets.windowSize "./counter").bind
        (fun fresh => LoadStateFromFile fresh (SaveStateToFile twoBuckets) 20)
      = .ok { twoBuckets with currentIndex := 1 } ∧
    twoBuckets.entries = [some ⟨1, 5⟩, some ⟨7, 10⟩] ∧ (5 : Int) ≤ 20 ∧ (10 : Int) ≤ 20 ∧
    (NewRequestCounter overlong.precisionLevel overlong.windowSize "./counter").bind
        (fun fresh => LoadStateFromFile fresh (SaveStateToFile overlong) 20)
      = .error .indexOutOfRange := by
  decide

/-- C8 (amended). For every state with `windowSize > 0` whose current bucket is present
with count `c`, every `now` and every `N ≥ 1`: `N` record steps at the same instant
`now`, processed one at a time with no rotation or sweep between them, all succeed; the
`k`-th of them returns `k` plus `base`, so the last returns `N + base`, where `base` is
the sum of the counts of the entries that were valid before the calls (`Expiration`
after `now`) plus, when the current bucket was not valid before the calls, its count
`c`. -/
theorem C8_same_instant_records (r : requestCounter) (now : Int) (N : Nat)
    (e : RequestEntry) (h : currentIs r e) (hw : 0 < r.windowSize) (hN : 1 ≤ N) :
    ∃ r1 totals, processAll r (List.replicate N now) = .ok (r1, totals) ∧
      totals = (List.range N).map (fun k : Nat =>
        (k : Int) + 1 + (windowSum now r.entries + if now < e.Expiration then 0 else e.Count)) ∧
      totals.getLast? = some
        ((N : Int) + (windowSum now r.entries + if now < e.Expiration then 0 else e.Count)) := by
  obtain ⟨r1, hr1⟩ := processAll_same_instant now N r e h hw
  have hbase : e.Count + windowSum now (r.entries.eraseIdx r.currentIndex.toNat)
      = windowSum now r.entries + if now < e.Expiration then 0 else e.Count := by
    rw [windowSum_eq_current_add r now e h]
    by_cases hv : now < e.Expiration
    · simp [contribution, hv]
    · simp [contribution, hv]; ring
  rw [hbase] at hr1
  refine ⟨r1, _, hr1, rfl, ?_⟩
  rw [List.getLast?_map, List.getLast?_range]
  have hne : N ≠ 0 := by omega
  simp only [hne, if_false, Option.map_some']
  congr 1
  have : ((N - 1 : Nat) : Int) = (N : Int) - 1 := by omega
  rw [this]; ring

/-- Witness for C8: three record steps at 100 seconds on the counter of
`TestProcessRequests`. -/
theorem C8_same_instant_records_witness :
    ∃ r1 totals,
      processAll processTestCounter (List.replicate 3 (100 * second)) = .ok (r1, totals) ∧
      totals = (List.range 3).map (fun k : Nat =>
        (k : Int) + 1 + (windowSum (100 * second) processTestCounter.entries
          + if 100 * second < (⟨1, 98 * second⟩ : RequestEntry).Expiration then 0
            else (⟨1, 98 * second⟩ : RequestEntry).Count)) ∧
      totals.getLast? = some
        (((3 : Nat) : Int) + (windowSum (100 * second) processTestCounter.entries
          + if 100 * second < (⟨1, 98 * second⟩ : RequestEntry).Expiration then 0
            else (⟨1, 98 * second⟩ : RequestEntry).Count)) :=
  C8_same_instant_records processTestCounter (100 * second) 3 ⟨1, 98 * second⟩
    (by decide) (by decide) (by decide)

/-- C8 (counterexample). On the counter of `TestProcessRequests` no entry is valid at
100 seconds (the sum of the valid counts is 0), yet `N = 1` record step at 100 seconds
returns 2, not `N + 0 = 1`.  And on `rotateTestCounter`, whose `windowSize` is 0, the
sum of the valid counts at 99 seconds is 1 (the current bucket), yet one record step at
99 seconds returns 0, not `N + 1 = 2`. -/
theorem C8_counterexample :
    windowSum (100 * second) processTestCounter.entries = 0 ∧
    (processAll processTestCounter (List.replicate 1 (100 * second))).map Prod.snd
      = .ok [2] ∧
    windowSum (99 * second) rotateTestCounter.entries = 1 ∧
    (processAll rotateTestCounter (List.replicate 1 (99 * second))).map Prod.snd
      = .ok [0] := by
  decide

/-- C9. For every state with `windowSize > 0` whose current bucket is present with
count `c`, a record step at `now` succeeds and returns `c + 1` plus the contributions
of the other buckets, whatever the previous `Expiration` of the current bucket, in
particular when it was before `now`; for a one-bucket buffer the total is exactly
`c + 1`. -/
theorem C9_current_bucket_always_counted (r : requestCounter) (now : Int)
    (e : RequestEntry) (h : currentIs r e) (hw : 0 < r.windowSize) :
    ∃ r1 total, ProcessRequests r now = .ok (r1, total) ∧
      total = e.Count + 1 + windowSum now (r.entries.eraseIdx r.currentIndex.toNat) ∧
      (r.entries.length = 1 → total = e.Count + 1) := by
  refine ⟨_, _, ProcessRequests_total r now e h hw, rfl, ?_⟩
  intro hlen
  have hnil : r.entries.eraseIdx r.currentIndex.toNat = [] := by
    have hl := List.length_eraseIdx_of_lt (currentIs_lt h)
    rw [hlen] at hl
    exact List.length_eq_zero.mp (by omega)
  simp [hnil, windowSum]

/-- Witness for C9: the counter of `TestProcessRequests`, whose only bucket holds
count 1 and expired two seconds before the request. -/
theorem C9_current_bucket_always_counted_witness :
    ∃ r1 total, ProcessRequests processTestCounter (100 * second) = .ok (r1, total) ∧
      total = (⟨1, 98 * second⟩ : RequestEntry).Count + 1
        + windowSum (100 * second)
            (processTestCounter.entries.eraseIdx processTestCounter.currentIndex.toNat) ∧
      (processTestCounter.entries.length = 1 →
        total = (⟨1, 98 * second⟩ : RequestEntry).Count + 1) :=
  C9_current_bucket_always_counted processTestCounter (100 * second) ⟨1, 98 * second⟩
    (by decide) (by decide)

/-- C10 (amended). For every precision `P > 0` and window size `W` with buffer length
`L = W / P ≥ 1` (integer division; this covers every `W ≥ P`): if a bucket is the current bucket during the
tick interval `[k*P, (k+1)*P)` and an event at time `t` in that interval sets its
`Expiration` to `t + W`, then the next `L - 1` rotations leave that bucket untouched
and the `L`-th rotation, the tick at time `(k+L)*P`, rotates into it and clears it.
At that moment its `Expiration` is at or after the tick time: it exceeds the tick time
by `(t - k*P) + (W mod P)`, which is less than `2*P`; so the cleared entry contributes
0 to the windowed sum at that time only when `t = k*P` and `P` divides `W`, and
contributes its whole count otherwise. -/
theorem C10_rotation_clears_bucket_at_window_edge (r : requestCounter) (e : RequestEntry)
    (k : Nat) (t : Int)
    (hP : 0 < r.precisionLevel)
    (hlen : (r.entries.length : Int) = r.windowSize / r.precisionLevel)
    (hc : currentIs r e)
    (hk : k * r.precisionLevel ≤ t) (ht : t < (k + 1) * r.precisionLevel) :
    ∃ r1 total r2 r3,
      ProcessRequests r t = .ok (r1, total) ∧
      r1.entries[r.currentIndex.toNat]? = some (some ⟨e.Count + 1, t + r.windowSize⟩) ∧
      rotateN (r.entries.length - 1) r1 = .ok r2 ∧
      r2.entries[r.currentIndex.toNat]? = some (some ⟨e.Count + 1, t + r.windowSize⟩) ∧
      RotateWindow r2 = .ok r3 ∧
      r3.currentIndex = r.currentIndex ∧
      r3.entries[r.currentIndex.toNat]? = some (some ⟨0, 0⟩) ∧
      (t + r.windowSize) - (k + r.entries.length) * r.precisionLevel
        = (t - k * r.precisionLevel) + r.windowSize % r.precisionLevel ∧
      (k + r.entries.length) * r.precisionLevel ≤ t + r.windowSize ∧
      t + r.windowSize < (k + r.entries.length + 2) * r.precisionLevel ∧
      contribution ((k + r.entries.length) * r.precisionLevel)
          (some ⟨e.Count + 1, t + r.windowSize⟩)
        = (if t = k * r.precisionLevel ∧ r.windowSize % r.precisionLevel = 0 then 0
            else e.Count + 1) := by
  have hcl := currentIs_lt hc
  have hget : (r.entries.set r.currentIndex.toNat
      (some ⟨e.Count + 1, t + r.windowSize⟩))[r.currentIndex.toNat]?
        = some (some ⟨e.Count + 1, t + r.windowSize⟩) :=
    List.getElem?_set_self hcl
  have hci : r.currentIndex < (r.entries.length : Int) := by
    have := hc.1; omega
  obtain ⟨r2, hr2, hlen2, hidx2, hkeep2⟩ :=
    rotateN_keeps_bucket
      { r with entries := (r.entries.set r.currentIndex.toNat
          (some ⟨e.Count + 1, t + r.windowSize⟩)) }
      (r.entries.length - 1) hc.1 (by simpa using hci) (by simp; omega)
  simp only [List.length_set] at hlen2 hidx2
  have h0r : 0 ≤ r2.currentIndex := by
    rw [hidx2]; exact Int.emod_nonneg _ (by omega)
  have hltr : r2.currentIndex < r2.entries.length := by
    rw [hidx2, hlen2]; exact Int.emod_lt_of_pos _ (by omega)
  have hback : (r2.currentIndex + 1) % (r2.entries.length : Int) = r.currentIndex := by
    rw [hidx2, hlen2, Int.emod_add_emod]
    have hsplit : r.currentIndex + ((r.entries.length - 1 : Nat) : Int) + 1
        = r.currentIndex + 1 * (r.entries.length : Int) := by
      have : ((r.entries.length - 1 : Nat) : Int) = (r.entries.length : Int) - 1 := by omega
      rw [this]; ring
    rw [hsplit, Int.add_mul_emod_self, Int.emod_eq_of_lt hc.1 hci]
  have hstep := RotateWindow_of_valid r2 h0r hltr
  rw [hback] at hstep
  have hdm := Int.ediv_add_emod r.windowSize r.precisionLevel
  have hm0 := Int.emod_nonneg r.windowSize (ne_of_gt hP)
  have hm1 := Int.emod_lt_of_pos r.windowSize hP
  have hexcess : (t + r.windowSize) - (k + r.entries.length) * r.precisionLevel
      = (t - k * r.precisionLevel) + r.windowSize % r.precisionLevel := by
    rw [hlen]
    linear_combination (-1 : Int) * hdm
  refine ⟨_, _, r2, _, ProcessRequests_of_current r t e hc, hget, hr2, ?_, hstep, rfl, ?_,
    hexcess, ?_, ?_, ?_⟩
  · rw [hkeep2]; exact hget
  · show (r2.entries.set _ _)[r.currentIndex.toNat]? = _
    rw [List.getElem?_set_self (by omega)]; rfl
  · linarith
  · have : (k + r.entries.length + 2) * r.precisionLevel
        = (k + r.entries.length) * r.precisionLevel + 2 * r.precisionLevel := by ring
    have ht2 : t - k * r.precisionLevel < r.precisionLevel := by linarith
    linarith
  · by_cases hedge : t = k * r.precisionLevel ∧ r.windowSize % r.precisionLevel = 0
    · have hnot : ¬ ((k + r.entries.length) * r.precisionLevel < t + r.windowSize) := by
        obtain ⟨h1, h2⟩ := hedge
        rw [h2, h1] at hexcess
        linarith
      rw [if_pos hedge]
      simp only [contribution]
      rw [if_neg hnot]
    · have hlt2 : (k + r.entries.length) * r.precisionLevel < t + r.windowSize := by
        by_contra hcon
        apply hedge
        constructor <;> linarith
      simp only [contribution, hlt2, if_true, hedge, if_false]

/-- Witness for C10: `clearedThree` (precision 2, window 6) with an event at `t = 1`
in the tick interval `[0, 2)`. -/
theorem C10_rotation_clears_bucket_at_window_edge_witness :
    ∃ r1 total r2 r3,
      ProcessRequests clearedThree 1 = .ok (r1, total) ∧
      r1.entries[clearedThree.currentIndex.toNat]?
        = some (some ⟨(⟨0, 0⟩ : RequestEntry).Count + 1, 1 + clearedThree.windowSize⟩) ∧
      rotateN (clearedThree.entries.length - 1) r1 = .ok r2 ∧
      r2.entries[clearedThree.currentIndex.toNat]?
        = some (some ⟨(⟨0, 0⟩ : RequestEntry).Count + 1, 1 + clearedThree.windowSize⟩) ∧
      RotateWindow r2 = .ok r3 ∧
      r3.currentIndex = clearedThree.currentIndex ∧
      r3.entries[clearedThree.currentIndex.toNat]? = some (some ⟨0, 0⟩) ∧
      (1 + clearedThree.windowSize)
          - ((0 : Nat) + clearedThree.entries.length) * clearedThree.precisionLevel
        = (1 - (0 : Nat) * clearedThree.precisionLevel)
          + clearedThree.windowSize % clearedThree.precisionLevel ∧
      ((0 : Nat) + clearedThree.entries.length) * clearedThree.precisionLevel
        ≤ 1 + clearedThree.windowSize ∧
      1 + clearedThree.windowSize
        < ((0 : Nat) + clearedThree.entries.length + 2) * clearedThree.precisionLevel ∧
      contribution (((0 : Nat) + clearedThree.entries.length) * clearedThree.precisionLevel)
          (some ⟨(⟨0, 0⟩ : RequestEntry).Count + 1, 1 + clearedThree.windowSize⟩)
        = (if (1 : Int) = (0 : Nat) * clearedThree.precisionLevel
              ∧ clearedThree.windowSize % clearedThree.precisionLevel = 0 then 0
            else (⟨0, 0⟩ : RequestEntry).Count + 1) :=
  C10_rotation_clears_bucket_at_window_edge clearedThree ⟨0, 0⟩ 0 1
    (by decide) (by decide) (by decide) (by decide) (by decide)

/-- C10 (counterexample). Precision 2, window 6, three buckets.  An event at `t = 1`,
in the tick interval `[0, 2)`, sets the `Expiration` of bucket 0 to 7.  After two
rotations the bucket still holds count 1 with expiration 7, which is after the time
`(0+3)*2 = 6` of the third rotation: the windowed sum at time 6 is 1.  The third
rotation rotates into bucket 0 and clears it, and the windowed sum at time 6 drops to
0. -/
theorem C10_counterexample :
    (ProcessRequests clearedThree 1).map (fun p => p.1.entries)
      = .ok [some ⟨1, 7⟩, some ⟨0, 0⟩, some ⟨0, 0⟩] ∧
    ((ProcessRequests clearedThree 1).bind (fun p => rotateN 2 p.1)).map
        (fun r2 => (r2.entries, r2.currentIndex, windowSum 6 r2.entries))
      = .ok ([some ⟨1, 7⟩, some ⟨0, 0⟩, some ⟨0, 0⟩], 2, 1) ∧
    ¬ ((7 : Int) ≤ (0 + 3) * 2) ∧
    ((ProcessRequests clearedThree 1).bind (fun p => rotateN 3 p.1)).map
        (fun r3 => (r3.entries, r3.currentIndex, windowSum 6 r3.entries))
      = .ok ([some ⟨0, 0⟩, some ⟨0, 0⟩, some ⟨0, 0⟩], 0, 0) := by
  decide

/-- C11 (amended). A never-written entry (nil) and a cleared entry (count 0, zero
expiration) add the same, 0, to every windowed sum.  For every counter state,
replacing a never-written entry other than the current bucket by a cleared entry, or
the reverse, changes neither the windowed sum nor the success and the total of a
record step.  A snapshot tells the two apart: the cleared entry is encoded, the
never-written one is omitted, so the snapshot with the cleared entry is one entry
longer. -/
theorem C11_unwritten_and_cleared_other_bucket (r : requestCounter) (i : Nat) (now : Int)
    (hi : r.entries[i]? = some none) (hne : r.currentIndex ≠ (i : Int)) :
    contribution now (some ⟨0, 0⟩) = contribution now none ∧
    windowSum now (r.entries.set i (some ⟨0, 0⟩)) = windowSum now r.entries ∧
    (ProcessRequests { r with entries := r.entries.set i (some ⟨0, 0⟩) } now).map Prod.snd
      = (ProcessRequests r now).map Prod.snd ∧
    (SaveStateToFile { r with entries := r.entries.set i (some ⟨0, 0⟩) }).length
      = (SaveStateToFile r).length + 1 ∧
    (⟨0, 0⟩ : RequestEntry) ∈
      SaveStateToFile { r with entries := r.entries.set i (some ⟨0, 0⟩) } := by
  refine ⟨by simp [contribution], windowSum_set_cleared now r.entries i hi,
    ProcessRequests_set_cleared r i now hi hne, ?_, ?_⟩
  · rw [SaveStateToFile_eq, SaveStateToFile_eq]
    exact (filterMap_set_cleared r.entries i ⟨0, 0⟩ hi).1
  · rw [SaveStateToFile_eq]
    exact (filterMap_set_cleared r.entries i ⟨0, 0⟩ hi).2

/-- Witness for C11: the never-written second slot of `halfFilled`, at `now = 2`. -/
theorem C11_unwritten_and_cleared_other_bucket_witness :
    contribution 2 (some ⟨0, 0⟩) = contribution 2 none ∧
    windowSum 2 (halfFilled.entries.set 1 (some ⟨0, 0⟩)) = windowSum 2 halfFilled.entries ∧
    (ProcessRequests { halfFilled with entries := halfFilled.entries.set 1 (some ⟨0, 0⟩) }
        2).map Prod.snd
      = (ProcessRequests halfFilled 2).map Prod.snd ∧
    (SaveStateToFile { halfFilled with entries := halfFilled.entries.set 1 (some ⟨0, 0⟩) }).length
      = (SaveStateToFile halfFilled).length + 1 ∧
    (⟨0, 0⟩ : RequestEntry) ∈
      SaveStateToFile { halfFilled with entries := halfFilled.entries.set 1 (some ⟨0, 0⟩) } :=
  C11_unwritten_and_cleared_other_bucket halfFilled 1 2 (by decide) (by decide)

/-- C11 (counterexample). With its two slots never written, `freshTwo` makes the record
step panic, while with slot 0 cleared the record step returns 1.  A sweep of
`halfFilled`, whose second slot was never written, panics, while with that slot cleared
the sweep succeeds.  The snapshot of `halfFilled` has one entry, with the slot cleared
it has two. -/
theorem C11_counterexample :
    freshTwo.entries[0]? = some none ∧
    ProcessRequests freshTwo 2 = .error .nilDereference ∧
    (ProcessRequests { freshTwo with entries := freshTwo.entries.set 0 (some ⟨0, 0⟩) }
        2).map Prod.snd = .ok 1 ∧
    halfFilled.entries[1]? = some none ∧
    ResetTimer halfFilled 2 = .error .nilDereference ∧
    ResetTimer { halfFilled with entries := halfFilled.entries.set 1 (some ⟨0, 0⟩) } 2
      = .ok { halfFilled with entries := [some ⟨3, 5⟩, some ⟨0, 0⟩] } ∧
    SaveStateToFile halfFilled = [⟨3, 5⟩] ∧
    SaveStateToFile { halfFilled with entries := halfFilled.entries.set 1 (some ⟨0, 0⟩) }
      = [⟨3, 5⟩, ⟨0, 0⟩] := by
  decide

/-- C12 (amended). For every counter state, the sequence of entries that a snapshot
(`SaveStateToFile`) encodes consists of exactly the present (non-nil) entries of the
buffer, in buffer order, each with its `Count` and `Expiration`: it omits no present
entry, and a cleared entry (count 0, zero expiration) is present and is encoded like
any other. -/
theorem C12_snapshot_holds_present_entries (r : requestCounter) :
    SaveStateToFile r = r.entries.filterMap id ∧
    (∀ e : RequestEntry, e ∈ SaveStateToFile r ↔ some e ∈ r.entries) ∧
    ((some ⟨0, 0⟩ : Option RequestEntry) ∈ r.entries →
      (⟨0, 0⟩ : RequestEntry) ∈ SaveStateToFile r) := by
  have hmem : ∀ e : RequestEntry, e ∈ SaveStateToFile r ↔ some e ∈ r.entries := by
    intro e
    rw [SaveStateToFile_eq]
    simp [List.mem_filterMap]
  exact ⟨SaveStateToFile_eq r, hmem, fun h => (hmem _).mpr h⟩

/-- C12 (counterexample). The snapshot of `clearedUnit`, whose three buckets are all
cleared (count 0, zero expiration), consists of three empty entries. -/
theorem C12_counterexample :
    clearedUnit.entries = [some ⟨0, 0⟩, some ⟨0, 0⟩, some ⟨0, 0⟩] ∧
    SaveStateToFile clearedUnit = [⟨0, 0⟩, ⟨0, 0⟩, ⟨0, 0⟩] := by
  decide

/-- C13. Window ratio invariant.  For every precision `> 0` and `windowSize ≥
precision`, `NewRequestCounter` returns a counter whose buffer has length
`windowSize / precision` (integer division); every finite sequence of rotation steps
runs on it; and after any finite sequence of record, rotation, sweep and restore steps
that runs, the buffer length is still `windowSize / precision`, with precision and
window size unchanged. -/
theorem C13_window_ratio_invariant (precison wsize : Int) (filePath : String)
    (hp : 0 < precison) (hw : precison ≤ wsize) :
    ∃ r, NewRequestCounter precison wsize filePath = .ok r ∧
      (r.entries.length : Int) = wsize / precison ∧
      (∀ n : Nat, ∃ r1, runSteps r (List.replicate n Step.rotate) = .ok r1) ∧
      ∀ (steps : List Step) (r1 : requestCounter), runSteps r steps = .ok r1 →
        (r1.entries.length : Int) = wsize / precison ∧
        r1.precisionLevel = precison ∧ r1.windowSize = wsize := by
  have hne : precison ≠ 0 := by omega
  have hdiv : Int.tdiv wsize precison = wsize / precison :=
    Int.tdiv_eq_ediv (by omega) (by omega)
  have h1 : 1 ≤ wsize / precison := by
    have := Int.ediv_le_ediv hp hw
    rwa [Int.ediv_self hne] at this
  have hnew : NewRequestCounter precison wsize filePath = .ok
      { entries := List.replicate (wsize / precison).toNat none
        precisionLevel := precison
        windowSize := wsize
        currentIndex := 0
        filePath := filePath ++ "/" ++ "counter.gob" } := by
    simp only [NewRequestCounter, hne, if_false, hdiv]
    rw [if_neg (by omega)]
  have hlen : (((List.replicate (wsize / precison).toNat
      (none : Option RequestEntry)).length : Nat) : Int) = wsize / precison := by
    rw [List.length_replicate]; omega
  refine ⟨_, hnew, hlen, ?_, ?_⟩
  · intro n
    exact runSteps_rotations n _ (le_refl _) (by simp only [hlen]; omega)
  · intro steps r1 hrun
    obtain ⟨g1, g2, g3⟩ := runSteps_shape hrun
    refine ⟨?_, g2, g3⟩
    rw [g1]; exact hlen

/-- Witness for C13: precision 1, window 3. -/
theorem C13_window_ratio_invariant_witness :
    ∃ r, NewRequestCounter 1 3 "./counter" = .ok r ∧
      (r.entries.length : Int) = 3 / 1 ∧
      (∀ n : Nat, ∃ r1, runSteps r (List.replicate n Step.rotate) = .ok r1) ∧
      ∀ (steps : List Step) (r1 : requestCounter), runSteps r steps = .ok r1 →
        (r1.entries.length : Int) = 3 / 1 ∧
        r1.precisionLevel = 1 ∧ r1.windowSize = 3 :=
  C13_window_ratio_invariant 1 3 "./counter" (by decide) (by decide)

/-- C14 (amended). For every configuration with `windowSize < precision`, the start of
`main` rejects it with `log.Fatal` (for the address or for the ratio) and does not
construct a counter.  `NewRequestCounter` itself does not reject such a ratio: for
`0 ≤ windowSize < precision` it returns a counter whose buffer is empty, on which
every record step and every rotation step panics with an index out of range. -/
theorem C14_main_rejects_invalid_ratio (parseIP : String → Bool) (input : UserInput)
    (h : input.WindowSize < input.Precison) :
    (main parseIP input = .error .invalidAddress ∨
      main parseIP input = .error .invalidWindow) ∧
    (∀ r, main parseIP input ≠ .ok r) ∧
    (0 ≤ input.WindowSize →
      ∃ r, NewRequestCounter input.Precison input.WindowSize input.OutputFilePath = .ok r ∧
        r.entries = [] ∧
        (∀ now, ProcessRequests r now = .error .indexOutOfRange) ∧
        RotateWindow r = .error .indexOutOfRange) := by
  have hmain : main parseIP input = .error .invalidAddress ∨
      main parseIP input = .error .invalidWindow := by
    unfold main
    by_cases ha : parseIP input.Address = false ∧ input.Address ≠ "localhost"
    · left; rw [if_pos ha]
    · right; rw [if_neg ha, if_pos h]
  refine ⟨hmain, ?_, ?_⟩
  · intro r hr
    rcases hmain with h1 | h1 <;> rw [h1] at hr <;> exact absurd hr (by simp)
  · intro hw
    have hne : input.Precison ≠ 0 := by omega
    have hdiv : Int.tdiv input.WindowSize input.Precison = 0 := by
      rw [Int.tdiv_eq_ediv hw (by omega)]
      exact Int.ediv_eq_zero_of_lt hw h
    have hnew : NewRequestCounter input.Precison input.WindowSize input.OutputFilePath = .ok
        { entries := []
          precisionLevel := input.Precison
          windowSize := input.WindowSize
          currentIndex := 0
          filePath := input.OutputFilePath ++ "/" ++ "counter.gob" } := by
      simp [NewRequestCounter, hne, hdiv]
    refine ⟨_, hnew, rfl, ?_, ?_⟩
    · intro now
      simp [ProcessRequests, deref]
    · simp [RotateWindow, store]

/-- Witness for C14: `badRatio`, window one second and precision two seconds. -/
theorem C14_main_rejects_invalid_ratio_witness :
    (main (fun _ => true) badRatio = .error .invalidAddress ∨
      main (fun _ => true) badRatio = .error .invalidWindow) ∧
    (∀ r, main (fun _ => true) badRatio ≠ .ok r) ∧
    (0 ≤ badRatio.WindowSize →
      ∃ r, NewRequestCounter badRatio.Precison badRatio.WindowSize badRatio.OutputFilePath
          = .ok r ∧
        r.entries = [] ∧
        (∀ now, ProcessRequests r now = .error .indexOutOfRange) ∧
        RotateWindow r = .error .indexOutOfRange) :=
  C14_main_rejects_invalid_ratio (fun _ => true) badRatio (by decide)

/-- C14 (counterexample). With window one second and precision two seconds,
`NewRequestCounter` does not fail: it returns a counter, whose buffer is empty. -/
theorem C14_counterexample :
    second < 2 * second ∧
    NewRequestCounter (2 * second) second "./counter" = .ok
      { entries := []
        precisionLevel := 2 * second
        windowSize := second
        currentIndex := 0
        filePath := "./counter/counter.gob" } := by
  decide

/-- C15 (the code breaks the claim). On the counter freshly constructed with precision
one second and window three seconds (buffer length 3) the scenario stops at its first
record step, which panics with a nil dereference instead of returning 1.  From the
same counter with its three slots cleared instead of nil, the scenario returns the
totals 1, 2, 3, 1 of the claim. -/
theorem C15_scenario_panics_on_fresh_counter :
    (NewRequestCounter second (3 * second) "./counter").map (fun r => r.entries)
      = .ok [none, none, none] ∧
    (NewRequestCounter second (3 * second) "./counter").bind
      (fun r => ProcessRequests r 0) = .error .nilDereference ∧
    (NewRequestCounter second (3 * second) "./counter").bind scenario
      = .error .nilDereference ∧
    (NewRequestCounter second (3 * second) "./counter").map
        (fun r => { r with entries := r.entries.map (fun _ => some RequestEntry.zero) })
      = .ok clearedUnit ∧
    scenario clearedUnit = .ok [1, 2, 3, 1] := by
  decide

/-- C16. For every counter state with a present current bucket holding count `c` and
every timestamp `now`, a record step succeeds and changes the state only at the
current bucket: afterwards `entries[currentIndex]` has `Count = c + 1` and
`Expiration = now + windowSize`, every other slot is unchanged, and `currentIndex`,
precision, window size, file path and the buffer length are unchanged. -/
theorem C16_record_step_frame (r : requestCounter) (now : Int) (e : RequestEntry)
    (h : currentIs r e) :
    ∃ r1 total, ProcessRequests r now = .ok (r1, total) ∧
      r1.entries[r.currentIndex.toNat]? = some (some ⟨e.Count + 1, now + r.windowSize⟩) ∧
      (∀ i : Nat, i ≠ r.currentIndex.toNat → r1.entries[i]? = r.entries[i]?) ∧
      r1.currentIndex = r.currentIndex ∧ r1.precisionLevel = r.precisionLevel ∧
      r1.windowSize = r.windowSize ∧ r1.filePath = r.filePath ∧
      r1.entries.length = r.entries.length := by
  refine ⟨_, _, ProcessRequests_of_current r now e h, ?_, ?_, rfl, rfl, rfl, rfl, ?_⟩
  · exact List.getElem?_set_self (currentIs_lt h)
  · intro i hi
    exact List.getElem?_set_ne (Ne.symm hi)
  · simp

/-- Witness for C16: the current bucket of `twoBuckets` (count 1) and a request at
`now = 7`. -/
theorem C16_record_step_frame_witness :
    ∃ r1 total, ProcessRequests twoBuckets 7 = .ok (r1, total) ∧
      r1.entries[twoBuckets.currentIndex.toNat]?
        = some (some ⟨(⟨1, 5⟩ : RequestEntry).Count + 1, 7 + twoBuckets.windowSize⟩) ∧
      (∀ i : Nat, i ≠ twoBuckets.currentIndex.toNat →
        r1.entries[i]? = twoBuckets.entries[i]?) ∧
      r1.currentIndex = twoBuckets.currentIndex ∧
      r1.precisionLevel = twoBuckets.precisionLevel ∧
      r1.windowSize = twoBuckets.windowSize ∧ r1.filePath = twoBuckets.filePath ∧
      r1.entries.length = twoBuckets.entries.length :=
  C16_record_step_frame twoBuckets 7 ⟨1, 5⟩ (by decide)

/-- C17 (the code breaks the claim). After `Initializaion` the four background tasks
run.  One `HandleShutdown` call writes the final snapshot of the counter and hands its
single shutdown value to one task, which returns; whichever task receives it, the
other three tasks are still running afterwards. -/
theorem C17_shutdown_reaches_one_task (c : requestCounter)
    (file : Option (List RequestEntry)) (now : Int) (e : Engine) (receiver : Task)
    (hinit : Initializaion c file now = .ok e) :
    e.running = [Task.SaveStatePeriodically, Task.ResetTimer, Task.RotateWindow,
      Task.ProcessRequests] ∧
    ∃ e1, HandleShutdown e receiver = some e1 ∧
      e1.file = some (SaveStateToFile e.counter) ∧
      e1.counter = e.counter ∧
      receiver ∉ e1.running ∧
      e1.running.length = 3 ∧
      ∀ t : Task, t ≠ receiver → t ∈ e1.running := by
  have hrun : e.running = [Task.SaveStatePeriodically, Task.ResetTimer, Task.RotateWindow,
      Task.ProcessRequests] := by
    unfold Initializaion at hinit
    cases file with
    | none =>
      simp only [Except.ok.injEq] at hinit
      rw [← hinit]
    | some d =>
      simp only at hinit
      cases hl : LoadStateFromFile c d now with
      | error p =>
        rw [hl] at hinit
        exact absurd hinit (by simp)
      | ok c1 =>
        rw [hl] at hinit
        simp only [Except.ok.injEq] at hinit
        rw [← hinit]
  have hmem : receiver ∈ e.running := by
    rw [hrun]; cases receiver <;> decide
  refine ⟨hrun, ⟨e.counter, some (SaveStateToFile e.counter), e.running.erase receiver⟩,
    ?_, rfl, rfl, ?_, ?_, ?_⟩
  · simp [HandleShutdown, hmem]
  · show receiver ∉ e.running.erase receiver
    rw [hrun]; cases receiver <;> decide
  · show (e.running.erase receiver).length = 3
    rw [hrun]; cases receiver <;> decide
  · intro t ht
    show t ∈ e.running.erase receiver
    rw [hrun]
    cases receiver <;> cases t <;> first | exact absurd rfl ht | decide

/-- Witness for C17: the engine started on `freshTwo` with no snapshot file; the
shutdown value is received by `RotateWindow`. -/
theorem C17_shutdown_reaches_one_task_witness :
    (⟨freshTwo, none, [Task.SaveStatePeriodically, Task.ResetTimer, Task.RotateWindow,
        Task.ProcessRequests]⟩ : Engine).running
      = [Task.SaveStatePeriodically, Task.ResetTimer, Task.RotateWindow,
          Task.ProcessRequests] ∧
    ∃ e1, HandleShutdown ⟨freshTwo, none, [Task.SaveStatePeriodically, Task.ResetTimer,
        Task.RotateWindow, Task.ProcessRequests]⟩ Task.RotateWindow = some e1 ∧
      e1.file = some (SaveStateToFile freshTwo) ∧
      e1.counter = freshTwo ∧
      Task.RotateWindow ∉ e1.running ∧
      e1.running.length = 3 ∧
      ∀ t : Task, t ≠ Task.RotateWindow → t ∈ e1.running :=
  C17_shutdown_reaches_one_task freshTwo none 0 _ Task.RotateWindow (by decide)

/-- C18. The windowed sum is not changed by a sweep: for every counter state in which
every entry is present, every sweep time `now` and every query time `t ≥ now`, the
sweep step at `now` succeeds and the sum of `Count` over the entries with `Expiration`
strictly after `t` is the same before and after it. -/
theorem C18_sweep_keeps_window_sum (r : requestCounter) (now t : Int)
    (hall : ∀ slot ∈ r.entries, slot ≠ none) (ht : now ≤ t) :
    ∃ r1, ResetTimer r now = .ok r1 ∧
      windowSum t r1.entries = windowSum t r.entries := by
  obtain ⟨entries1, hloop, -, -⟩ := resetLoop_of_present now r.entries hall
  exact ⟨{ r with entries := entries1 }, by simp [ResetTimer, hloop],
    resetLoop_windowSum hloop ht⟩

/-- Witness for C18: the counter of `TestRotateWindow` swept at 99 seconds and queried
at 99 seconds. -/
theorem C18_sweep_keeps_window_sum_witness :
    ∃ r1, ResetTimer rotateTestCounter (99 * second) = .ok r1 ∧
      windowSum (99 * second) r1.entries
        = windowSum (99 * second) rotateTestCounter.entries :=
  C18_sweep_keeps_window_sum rotateTestCounter (99 * second) (99 * second)
    (by decide) (by decide)

/-- C19. `currentIndex` is always a valid index: for every counter state with
`0 ≤ currentIndex < L`, where `L` is the buffer length, a rotation step succeeds and
yields a state with `0 ≤ currentIndex < L`; a record step and a sweep step never fail
with an index out of range, and every state they yield has the same buffer length and
`0 ≤ currentIndex < L`.  The record step yields a state exactly when the current
bucket is present, the sweep step exactly when every slot is present. -/
theorem C19_current_index_stays_valid (r : requestCounter) (now : Int)
    (h0 : 0 ≤ r.currentIndex) (hlt : r.currentIndex < r.entries.length) :
    (∃ r1, RotateWindow r = .ok r1 ∧ r1.entries.length = r.entries.length ∧
      0 ≤ r1.currentIndex ∧ r1.currentIndex < r1.entries.length) ∧
    ProcessRequests r now ≠ .error .indexOutOfRange ∧
    (∀ r1 total, ProcessRequests r now = .ok (r1, total) →
      r1.entries.length = r.entries.length ∧
      0 ≤ r1.currentIndex ∧ r1.currentIndex < r1.entries.length) ∧
    ((∃ r1 total, ProcessRequests r now = .ok (r1, total)) ↔ ∃ e, currentIs r e) ∧
    ResetTimer r now ≠ .error .indexOutOfRange ∧
    (∀ r1, ResetTimer r now = .ok r1 →
      r1.entries.length = r.entries.length ∧
      0 ≤ r1.currentIndex ∧ r1.currentIndex < r1.entries.length) ∧
    ((∃ r1, ResetTimer r now = .ok r1) ↔ ∀ slot ∈ r.entries, slot ≠ none) := by
  refine ⟨?_, ?_, ?_, ?_, ?_, ?_, ?_⟩
  · have hstep := RotateWindow_of_valid r h0 hlt
    obtain ⟨g1, -, -, g0, glt⟩ := RotateWindow_shape hstep
    exact ⟨_, hstep, g1, g0, glt⟩
  · intro hp
    unfold ProcessRequests at hp
    cases hd : deref r.entries r.currentIndex with
    | error p =>
      rw [hd] at hp
      simp only [Except.error.injEq] at hp
      rw [hp] at hd
      exact deref_in_range h0 hlt hd
    | ok e =>
      rw [hd] at hp
      exact absurd hp (by simp)
  · intro r1 total hp
    obtain ⟨g1, -, -, g4⟩ := ProcessRequests_shape hp
    rw [g1, g4]
    exact ⟨rfl, h0, hlt⟩
  · constructor
    · rintro ⟨r1, total, hp⟩
      unfold ProcessRequests at hp
      cases hd : deref r.entries r.currentIndex with
      | error p =>
        rw [hd] at hp
        exact absurd hp (by simp)
      | ok e => exact ⟨e, deref_ok hd⟩
    · rintro ⟨e, he⟩
      exact ⟨_, _, ProcessRequests_of_current r now e he⟩
  · intro hp
    unfold ResetTimer at hp
    cases hl : resetLoop now r.entries with
    | error p =>
      rw [hl] at hp
      simp only [Except.error.injEq] at hp
      have := resetLoop_error hl
      rw [hp] at this
      exact absurd this (by simp)
    | ok entries1 =>
      rw [hl] at hp
      exact absurd hp (by simp)
  · intro r1 hp
    obtain ⟨g1, -, -, g4⟩ := ResetTimer_shape hp
    rw [g1, g4]
    exact ⟨rfl, h0, hlt⟩
  · constructor
    · rintro ⟨r1, hp⟩
      unfold ResetTimer at hp
      cases hl : resetLoop now r.entries with
      | error p =>
        rw [hl] at hp
        exact absurd hp (by simp)
      | ok entries1 => exact resetLoop_ok_present hl
    · intro hall
      obtain ⟨entries1, hloop, -, -⟩ := resetLoop_of_present now r.entries hall
      exact ⟨{ r with entries := entries1 }, by simp [ResetTimer, hloop]⟩

/-- Witness for C19: `twoBuckets`, whose `currentIndex` is 0 in a buffer of length 2. -/
theorem C19_current_index_stays_valid_witness :
    (∃ r1, RotateWindow twoBuckets = .ok r1 ∧
      r1.entries.length = twoBuckets.entries.length ∧
      0 ≤ r1.currentIndex ∧ r1.currentIndex < r1.entries.length) ∧
    ProcessRequests twoBuckets 7 ≠ .error .indexOutOfRange ∧
    (∀ r1 total, ProcessRequests twoBuckets 7 = .ok (r1, total) →
      r1.entries.length = twoBuckets.entries.length ∧
      0 ≤ r1.currentIndex ∧ r1.currentIndex < r1.entries.length) ∧
    ((∃ r1 total, ProcessRequests twoBuckets 7 = .ok (r1, total)) ↔
      ∃ e, currentIs twoBuckets e) ∧
    ResetTimer twoBuckets 7 ≠ .error .indexOutOfRange ∧
    (∀ r1, ResetTimer twoBuckets 7 = .ok r1 →
      r1.entries.length = twoBuckets.entries.length ∧
      0 ≤ r1.currentIndex ∧ r1.currentIndex < r1.entries.length) ∧
    ((∃ r1, ResetTimer twoBuckets 7 = .ok r1) ↔ ∀ slot ∈ twoBuckets.entries, slot ≠ none) :=
  C19_current_index_stays_valid twoBuckets 7 (by decide) (by decide)

/-- C20. Restore is in range exactly when the retained entries fit the buffer.  For
every decoded snapshot `d`, restore time `now` and counter with buffer length `L`,
writing `k` for the number of entries of `d` with `Expiration` after
`now - windowSize`: `LoadStateFromFile` completes if and only if `k ≤ L`, and with
`k > L` it fails with an index out of range; when it completes the buffer length is
unchanged and `currentIndex` is `k - 1`, a valid index, for `k ≥ 1`, and is unchanged
for `k = 0`.  Hence, for a counter whose `currentIndex` is a valid index when `L ≥ 1`
(as after `NewRequestCounter`), it completes and leaves `0 ≤ currentIndex < L` when
`L ≥ 1` if and only if `k ≤ L`. -/
theorem C20_restore_in_range_iff_fits (r : requestCounter) (d : List RequestEntry)
    (now : Int) :
    ((∃ r1, LoadStateFromFile r d now = .ok r1) ↔
      (retained now r.windowSize d).length ≤ r.entries.length) ∧
    (r.entries.length < (retained now r.windowSize d).length →
      LoadStateFromFile r d now = .error .indexOutOfRange) ∧
    (∀ r1, LoadStateFromFile r d now = .ok r1 →
      r1.entries.length = r.entries.length ∧
      r1.currentIndex =
        (if (retained now r.windowSize d).length = 0 then r.currentIndex
          else ((retained now r.windowSize d).length : Int) - 1) ∧
      (1 ≤ (retained now r.windowSize d).length →
        0 ≤ r1.currentIndex ∧ r1.currentIndex < r.entries.length)) ∧
    ((1 ≤ r.entries.length → 0 ≤ r.currentIndex ∧ r.currentIndex < r.entries.length) →
      ((∃ r1, LoadStateFromFile r d now = .ok r1 ∧
          (1 ≤ r.entries.length →
            0 ≤ r1.currentIndex ∧ r1.currentIndex < r.entries.length)) ↔
        (retained now r.windowSize d).length ≤ r.entries.length)) := by
  obtain ⟨hfit, hbig⟩ := LoadStateFromFile_any r d now
  have hfits : ∀ r1, LoadStateFromFile r d now = .ok r1 →
      (retained now r.windowSize d).length ≤ r.entries.length := by
    intro r1 hload
    by_contra hc
    rw [hbig (by omega)] at hload
    exact absurd hload (by simp)
  have hres : ∀ r1, LoadStateFromFile r d now = .ok r1 →
      r1.entries.length = r.entries.length ∧
      r1.currentIndex =
        (if (retained now r.windowSize d).length = 0 then r.currentIndex
          else ((retained now r.windowSize d).length : Int) - 1) := by
    intro r1 hload
    obtain ⟨r2, hload2, hlen, hci⟩ := hfit (hfits r1 hload)
    rw [hload2] at hload
    simp only [Except.ok.injEq] at hload
    rw [← hload]
    exact ⟨hlen, hci⟩
  refine ⟨?_, hbig, ?_, ?_⟩
  · constructor
    · rintro ⟨r1, hload⟩
      exact hfits r1 hload
    · intro hk
      obtain ⟨r1, hload, -, -⟩ := hfit hk
      exact ⟨r1, hload⟩
  · intro r1 hload
    obtain ⟨hlen, hci⟩ := hres r1 hload
    refine ⟨hlen, hci, ?_⟩
    intro hk
    have := hfits r1 hload
    rw [hci, if_neg (by omega)]
    omega
  · intro hidx
    constructor
    · rintro ⟨r1, hload, -⟩
      exact hfits r1 hload
    · intro hk
      obtain ⟨r1, hload, -, hci⟩ := hfit hk
      refine ⟨r1, hload, ?_⟩
      intro hL
      rw [hci]
      split
      · exact hidx hL
      · omega

/-- Example for C20: `sampleSnapshot` restored at `now = 105` into `freshThree`, where
one entry is retained, and at `now = 0`, where all three are. -/
theorem C20_restore_in_range_iff_fits_witness :
    (∃ r1, LoadStateFromFile freshThree sampleSnapshot 105 = .ok r1) ∧
    (retained 105 freshThree.windowSize sampleSnapshot).length = 1 ∧
    (∃ r1, LoadStateFromFile freshThree sampleSnapshot 0 = .ok r1) ∧
    (retained 0 freshThree.windowSize sampleSnapshot).length = 3 ∧
    LoadStateFromFile freshTwo sampleSnapshot 0 = .error .indexOutOfRange :=
  ⟨(C20_restore_in_range_iff_fits freshThree sampleSnapshot 105).1.mpr (by decide),
    by decide,
    (C20_restore_in_range_iff_fits freshThree sampleSnapshot 0).1.mpr (by decide),
    by decide,
    (C20_restore_in_range_iff_fits freshTwo sampleSnapshot 0).2.1 (by decide)⟩

end Webparser
